import Mathlib

/-!
# Verification of the CalDAV client / sync engine of `project-manager`

Shallow embedding of the CalDAV/iCalendar codec (`src/caldav.js`), the
discovery resolver and collection client (`src/caldav.js`), and the
reconciliation engine and scheduler glue (`src/main.js`), together with
proofs and refutations of the specification claims.

Strings are modelled as `List Char`.  JavaScript regular-expression scans
are modelled by equivalent recursive functions; where a regex is
case-insensitive (`/i`), the model folds ASCII case via `lowChar`.
-/

set_option maxHeartbeats 1000000
set_option maxRecDepth 10000
set_option linter.unusedVariables false

namespace PMSync

/-- Strings of the modelled program. -/
abbrev Str := List Char

/-- Coerce a Lean string literal to the model's string type. -/
def str (s : String) : Str := s.data

/-! ## ASCII case folding (for the case-insensitive regex flags) -/

/-- Upper/lower pairs of the ASCII alphabet. -/
def upLow : List (Char × Char) :=
  [('A','a'), ('B','b'), ('C','c'), ('D','d'), ('E','e'), ('F','f'), ('G','g'),
   ('H','h'), ('I','i'), ('J','j'), ('K','k'), ('L','l'), ('M','m'), ('N','n'),
   ('O','o'), ('P','p'), ('Q','q'), ('R','r'), ('S','s'), ('T','t'), ('U','u'),
   ('V','v'), ('W','w'), ('X','x'), ('Y','y'), ('Z','z')]

/-- ASCII lower-casing of one character (the case folding performed by the
`/i` regex flag on the ASCII markers used in the source). -/
def lowChar (c : Char) : Char :=
  (((upLow.find? (fun p => p.1 = c)).map (fun p => p.2)).getD c)

/-- ASCII lower-casing of a string. -/
def low (s : Str) : Str := s.map lowChar

/-- Case-insensitive character comparison. -/
def ciEq (a b : Char) : Bool := lowChar a = lowChar b

/-! ## Substring search (model of a global lazy regex scan for a literal) -/

/-- Case-insensitive "is prefix of". -/
def isPrefixCI : Str → Str → Bool
  | [], _ => true
  | _ :: _, [] => false
  | a :: as, b :: bs => ciEq a b && isPrefixCI as bs

/-- Find the first (leftmost, case-insensitive) occurrence of `pat`:
returns the text before the occurrence and the text after it. -/
def splitFirstCI (pat : Str) : Str → Option (Str × Str)
  | [] => if isPrefixCI pat [] then some ([], []) else none
  | c :: t =>
    if isPrefixCI pat (c :: t) then some ([], (c :: t).drop pat.length)
    else (splitFirstCI pat t).map (fun p => (c :: p.1, p.2))

/-- `pat` occurs in `s` (plain, case-sensitive). -/
def containsB (pat : Str) : Str → Bool
  | [] => pat.isPrefixOf []
  | c :: t => pat.isPrefixOf (c :: t) || containsB pat t

/-! ## Value-level escaping — `escICS` (src/caldav.js 719–725)

`escICS` is the composition of four global single-character replacements,
in the source's order: `\` → `\\`, then `;` → `\;`, then `,` → `\,`,
then newline → `\n`. -/

/-- `.replace(/\\/g, '\\\\')` -/
def escBS : Str → Str
  | [] => []
  | c :: t => if c = '\\' then '\\' :: '\\' :: escBS t else c :: escBS t

/-- `.replace(/;/g, '\\;')` -/
def escSemi : Str → Str
  | [] => []
  | c :: t => if c = ';' then '\\' :: ';' :: escSemi t else c :: escSemi t

/-- `.replace(/,/g, '\\,')` -/
def escComma : Str → Str
  | [] => []
  | c :: t => if c = ',' then '\\' :: ',' :: escComma t else c :: escComma t

/-- `.replace(/\n/g, '\\n')` -/
def escNl : Str → Str
  | [] => []
  | c :: t => if c = '\n' then '\\' :: 'n' :: escNl t else c :: escNl t

/-- `escICS` (src/caldav.js 719–725): escape `\`, `;`, `,`, newline, in that
order.  (`String(s || '')` only matters for null-ish inputs, which the model
represents as `[]`.) -/
def escICS (s : Str) : Str := escNl (escComma (escSemi (escBS s)))

/-- Per-character description of the composite escape (proved equal to
`escICS` below). -/
def escChar (c : Char) : Str :=
  if c = '\\' then ['\\', '\\']
  else if c = ';' then ['\\', ';']
  else if c = ',' then ['\\', ',']
  else if c = '\n' then ['\\', 'n']
  else [c]

/-- Concat-map over characters. -/
def cmap (f : Char → Str) : Str → Str
  | [] => []
  | c :: t => f c ++ cmap f t

/-- `s` has no backslash immediately followed by `n` (the configurations on
which the unescape pipeline inverts the escape pipeline). -/
def noBsN : Str → Bool
  | [] => true
  | [_] => true
  | c1 :: c2 :: t => !(c1 = '\\' && c2 = 'n') && noBsN (c2 :: t)

/-- Per-character form of the escape after the `\n`-unescape pass
(proof artifact). -/
def escChar1 (c : Char) : Str :=
  if c = '\\' then ['\\', '\\']
  else if c = ';' then ['\\', ';']
  else if c = ',' then ['\\', ',']
  else [c]

/-- Per-character form after the `\,`-unescape pass (proof artifact). -/
def escChar2 (c : Char) : Str :=
  if c = '\\' then ['\\', '\\']
  else if c = ';' then ['\\', ';']
  else [c]

/-- Per-character form after the `\;`-unescape pass (proof artifact). -/
def escChar3 (c : Char) : Str :=
  if c = '\\' then ['\\', '\\']
  else [c]

/-! ## Value-level unescaping (src/caldav.js 641–645)

parseICS unescapes each property value with four sequential global
replacements of two-character patterns, in this order:
`\n` → newline, `\,` → `,`, `\;` → `;`, `\\` → `\`. -/

/-- `.replace(/\\n/g, '\n')` -/
def unNl : Str → Str
  | [] => []
  | [c] => [c]
  | c1 :: c2 :: t =>
    if c1 = '\\' ∧ c2 = 'n' then '\n' :: unNl t else c1 :: unNl (c2 :: t)

/-- `.replace(/\\,/g, ',')` -/
def unComma : Str → Str
  | [] => []
  | [c] => [c]
  | c1 :: c2 :: t =>
    if c1 = '\\' ∧ c2 = ',' then ',' :: unComma t else c1 :: unComma (c2 :: t)

/-- `.replace(/\\;/g, ';')` -/
def unSemi : Str → Str
  | [] => []
  | [c] => [c]
  | c1 :: c2 :: t =>
    if c1 = '\\' ∧ c2 = ';' then ';' :: unSemi t else c1 :: unSemi (c2 :: t)

/-- `.replace(/\\\\/g, '\\')` -/
def unBS : Str → Str
  | [] => []
  | [c] => [c]
  | c1 :: c2 :: t =>
    if c1 = '\\' ∧ c2 = '\\' then '\\' :: unBS t else c1 :: unBS (c2 :: t)

/-- The value unescaping performed by `parseICS` (src/caldav.js 641–645). -/
def unescICS (s : Str) : Str := unBS (unSemi (unComma (unNl s)))

/-! ## The iCalendar parser — `parseICS` (src/caldav.js 628–653) -/

/-- `.replace(/\r\n?/g, '\n')`: normalise CR LF and lone CR to LF. -/
def normCR : Str → Str
  | [] => []
  | [c] => if c = '\r' then ['\n'] else [c]
  | c1 :: c2 :: t =>
    if c1 = '\r' then
      (if c2 = '\n' then '\n' :: normCR t else '\n' :: normCR (c2 :: t))
    else c1 :: normCR (c2 :: t)

/-- `.replace(/\n[ \t]/g, '')`: unfold continuation lines (drop a LF that is
followed by a space or tab, together with that space or tab). -/
def unfoldICS : Str → Str
  | [] => []
  | [c] => [c]
  | c1 :: c2 :: t =>
    if c1 = '\n' ∧ (c2 = ' ' ∨ c2 = '\t') then unfoldICS t
    else c1 :: unfoldICS (c2 :: t)

/-- The literal `BEGIN:VEVENT` marker. -/
def beginMark : Str := str "BEGIN:VEVENT"

/-- The literal `END:VEVENT` marker. -/
def endMark : Str := str "END:VEVENT"

/-- The global lazy scan `/BEGIN:VEVENT([\s\S]*?)END:VEVENT/gi`
(src/caldav.js 632): repeatedly take the text between the next
`BEGIN:VEVENT` and the first following `END:VEVENT`. -/
def extractBlocksF : Nat → Str → List Str
  | 0, _ => []
  | fuel + 1, s =>
    match splitFirstCI beginMark s with
    | none => []
    | some (_, rest) =>
      match splitFirstCI endMark rest with
      | none => []
      | some (blk, rest2) => blk :: extractBlocksF fuel rest2

/-- The scan itself.  Each round of the scan consumes at least the two
markers (22 characters), so `s.length + 1` rounds of fuel always suffice;
the fuel-stability theorem `extractBlocksF_congr` below makes this
precise. -/
def extractBlocks (s : Str) : List Str := extractBlocksF (s.length + 1) s

/-- Split a string into its LF-separated lines (the effect of scanning with
the `m` (multiline) flag: `^ … $` delimits each line). -/
def splitLines : Str → List Str
  | [] => [[]]
  | c :: t =>
    if c = '\n' then [] :: splitLines t
    else
      match splitLines t with
      | [] => [[c]]
      | l :: ls => (c :: l) :: ls

/-- `[A-Z]` -/
def isUpperAZ (c : Char) : Bool := 'A' ≤ c && c ≤ 'Z'

/-- `[A-Z0-9\-]` -/
def isKeyChar (c : Char) : Bool := isUpperAZ c || c.isDigit || c = '-'

/-- One line matched against `/^([A-Z][A-Z0-9\-]*(?:;[^\n:]+)?):(.*)$/`
(src/caldav.js 636): returns `(base key, raw parameter text, value)` for a
matching line, `none` otherwise.  The base key is the portion before any
`;`; the parameter text is everything between the first `;` and the `:`
(the source stores `rawKey.split(';').slice(1).join(';')`, i.e. exactly
that run). -/
def parseLine (l : Str) : Option (Str × Str × Str) :=
  match l with
  | [] => none
  | c :: t =>
    if isUpperAZ c then
      let k := c :: t.takeWhile isKeyChar
      match t.dropWhile isKeyChar with
      | ':' :: v => some (k, [], v)
      | ';' :: r2 =>
        let p := r2.takeWhile (fun d => d ≠ ':' ∧ d ≠ '\n')
        (if p = [] then none
         else match r2.dropWhile (fun d => d ≠ ':' ∧ d ≠ '\n') with
              | ':' :: v => some (k, p, v)
              | _ => none)
      | _ => none
    else none

/-- A parsed event: the JS object `ev`, as the list of its property
assignments in order.  Later assignments to the same key shadow earlier
ones (see `objGet`). -/
abbrev Obj := List (Str × Str)

/-- Property read `ev[k]`: the last value assigned to `k`, if any. -/
def objGet (ev : Obj) (k : Str) : Option Str :=
  ev.foldl (fun acc p => if p.1 = k then some p.2 else acc) none

/-- Process one line of an event block (src/caldav.js 638–649): on a match,
assign `ev[baseKey] = unescaped value` and `ev['_params_' + baseKey] =
parameter text`. -/
def procLine (ev : Obj) (l : Str) : Obj :=
  match parseLine l with
  | none => ev
  | some (k, p, v) => ev ++ [(k, unescICS v), (str "_params_" ++ k, p)]

/-- Build the property object of one VEVENT block. -/
def parseEventBlock (blk : Str) : Obj :=
  (splitLines blk).foldl procLine []

/-- Truthiness of `ev.UID` (a missing or empty string is falsy). -/
def truthy : Option Str → Bool
  | none => false
  | some [] => false
  | some (_ :: _) => true

/-- `parseICS` (src/caldav.js 628–653): unfold continuation lines, extract
the VEVENT blocks, parse each block's lines into a property object, and
keep only blocks whose `UID` is truthy. -/
def parseICS (icsText : Str) : List Obj :=
  ((extractBlocks (unfoldICS (normCR icsText))).map parseEventBlock).filter
    (fun ev => truthy (objGet ev (str "UID")))

/-! ## `parseDTSTART` (src/caldav.js 658–669) -/

/-- `YYYYMMDD…` → `YYYY-MM-DD` (the common slicing of both branches). -/
def sliceDate (val : Str) : Str :=
  val.take 4 ++ '-' :: (val.drop 4).take 2 ++ '-' :: (val.drop 6).take 2

/-- `parseDTSTART` (src/caldav.js 658–669): `none` for a falsy value, the
dashed date for an 8-digit DATE value or a `YYYYMMDDT…` date-time of length
≥ 15, `none` otherwise. -/
def parseDTSTART (val : Str) : Option Str :=
  if val = [] then none
  else if val.length = 8 ∧ val.all Char.isDigit then some (sliceDate val)
  else if 15 ≤ val.length ∧ val[8]? = some 'T' then some (sliceDate val)
  else none

/-! ## Dates — `incDate` (src/caldav.js 713–717)

`incDate` parses `dateStr + 'T12:00:00Z'` with the JavaScript `Date`
engine, adds one day, and slices the ISO string.  The `Date` library is
platform code, not repository code; for a valid `YYYY-MM-DD` at noon UTC
its extensional behaviour is exact proleptic-Gregorian calendar
arithmetic, embedded here directly.  (On an invalid date the source throws
inside `toISOString`; the embedding returns `[]` there, a branch never
reached by the claims, which all assume a valid date.) -/

/-- Gregorian leap year. -/
def isLeap (y : Nat) : Bool := (y % 4 = 0 && y % 100 ≠ 0) || y % 400 = 0

/-- Days in a month. -/
def daysInMonth (y m : Nat) : Nat :=
  if m = 2 then (if isLeap y then 29 else 28)
  else if m = 4 ∨ m = 6 ∨ m = 9 ∨ m = 11 then 30
  else 31

/-- Calendar successor, rolling over month and year boundaries. -/
def nextDay (y m d : Nat) : Nat × Nat × Nat :=
  if d < daysInMonth y m then (y, m, d + 1)
  else if m < 12 then (y, m + 1, 1)
  else (y + 1, 1, 1)

/-- One decimal digit character. -/
def digitChar : Nat → Char
  | 0 => '0' | 1 => '1' | 2 => '2' | 3 => '3' | 4 => '4'
  | 5 => '5' | 6 => '6' | 7 => '7' | 8 => '8' | 9 => '9'
  | _ => '?'

/-- Two-digit zero-padded decimal. -/
def pad2 (n : Nat) : Str := [digitChar (n / 10 % 10), digitChar (n % 10)]

/-- Four-digit zero-padded decimal. -/
def pad4 (n : Nat) : Str :=
  [digitChar (n / 1000 % 10), digitChar (n / 100 % 10),
   digitChar (n / 10 % 10), digitChar (n % 10)]

/-- `YYYY-MM-DD`. -/
def fmtYMD (y m d : Nat) : Str := pad4 y ++ '-' :: pad2 m ++ '-' :: pad2 d

/-- Is `c` a decimal digit position of `fmtYMD`'s shape? Validity of a
`YYYY-MM-DD` input to `incDate` (the range the JS `Date` parser accepts). -/
def validYMD (y m d : Nat) : Prop :=
  1 ≤ m ∧ m ≤ 12 ∧ 1 ≤ d ∧ d ≤ daysInMonth y m ∧ y ≤ 9999

/-- Parse a `YYYY-MM-DD` string. -/
def parseYMD (s : Str) : Option (Nat × Nat × Nat) :=
  match s with
  | [y1, y2, y3, y4, h1, m1, m2, h2, d1, d2] =>
    if h1 = '-' ∧ h2 = '-' ∧ [y1, y2, y3, y4, m1, m2, d1, d2].all Char.isDigit then
      some (((y1.toNat - 48) * 1000 + (y2.toNat - 48) * 100 +
             (y3.toNat - 48) * 10 + (y4.toNat - 48)),
            ((m1.toNat - 48) * 10 + (m2.toNat - 48)),
            ((d1.toNat - 48) * 10 + (d2.toNat - 48)))
    else none
  | _ => none

/-- `incDate` (src/caldav.js 713–717): the following calendar day, as
`YYYY-MM-DD`. -/
def incDate (s : Str) : Str :=
  match parseYMD s with
  | some (y, m, d) =>
    match nextDay y m d with
    | (y', m', d') => fmtYMD y' m' d'
  | none => []

/-! ## The iCalendar generator — `generateICS` (src/caldav.js 676–701) -/

/-- The input record of `generateICS`.  A missing/empty description or date
is modelled as `[]` (both are falsy in the source). -/
structure EventRec where
  uid : Str
  title : Str
  descrip : Str
  date : Str
  status : Str
deriving Repr, DecidableEq

/-- The global replacement of `-` by the empty string. -/
def stripDashes (s : Str) : Str := s.filter (fun c => c ≠ '-')

/-- The content lines of the generated document (src/caldav.js 682–698),
with `.filter(Boolean)` dropping the description line when the description
is falsy.  `stamp` stands for `toStamp(new Date())` and `today` for
`toDate(new Date())` (the clock is an explicit parameter of the model). -/
def genLines (stamp today : Str) (e : EventRec) : List Str :=
  ([some (str "BEGIN:VCALENDAR"),
    some (str "VERSION:2.0"),
    some (str "PRODID:-//Vonk & Vorm Project Manager//NL"),
    some (str "CALSCALE:GREGORIAN"),
    some (str "BEGIN:VEVENT"),
    some (str "UID:" ++ e.uid),
    some (str "DTSTAMP:" ++ stamp),
    some (str "DTSTART;VALUE=DATE:" ++
      stripDashes (if e.date = [] then today else e.date)),
    some (str "DTEND;VALUE=DATE:" ++
      stripDashes (incDate (if e.date = [] then today else e.date))),
    some (str "SUMMARY:" ++ escICS e.title),
    (if e.descrip = [] then none
     else some (str "DESCRIPTION:" ++ escICS e.descrip)),
    some (str "STATUS:" ++
      (if e.status = str "done" then str "CANCELLED" else str "CONFIRMED")),
    some (str "LAST-MODIFIED:" ++ stamp),
    some (str "END:VEVENT"),
    some (str "END:VCALENDAR")]).filterMap id

/-- `lines.join('\r\n')` -/
def joinCRLF : List Str → Str
  | [] => []
  | [l] => l
  | l :: ls => l ++ '\r' :: '\n' :: joinCRLF ls

/-- `lines.join('\n')` (used to describe the normalised document). -/
def joinLF : List Str → Str
  | [] => []
  | [l] => l
  | l :: ls => l ++ '\n' :: joinLF ls

/-- `generateICS` (src/caldav.js 676–701). -/
def generateICS (stamp today : Str) (e : EventRec) : Str :=
  joinCRLF (genLines stamp today e) ++ ['\r', '\n']

/-! ## The local store (src/db.js, `tasks` table) and the reconciliation
engine (src/main.js 232–267) -/

/-- One row of the `tasks` table, restricted to the columns the sync engine
reads or writes.  `date` is nullable; the text columns default to `''`
(modelled as `[]`). -/
structure Task where
  id : Nat
  title : Str
  descrip : Str
  date : Option Str
  status : Str
  created_by : Str
  priority : Str
  color : Str
  caldav_uid : Str
  caldav_etag : Str
deriving Repr, DecidableEq

/-- The table, in row order. -/
abbrev Store := List Task

/-- `AUTOINCREMENT`: a fresh id larger than every existing one. -/
def nextId (st : Store) : Nat := (st.map Task.id).foldr max 0 + 1

/-- `select * from tasks where caldav_uid = ?` (src/db.js 130–145).  The
source additionally orders the result by `date, created_at`; every theorem
below uses this lookup only under a hypothesis that makes the result a
singleton, where the order is irrelevant. -/
def selectByUid (st : Store) (uid : Str) : List Task :=
  st.filter (fun t => t.caldav_uid = uid)

/-- JavaScript `a || b` on strings (empty string is falsy). -/
def jsOr (a b : Str) : Str := if a = [] then b else a

/-- `syncRemoteEvent` (src/main.js 232–267): merge one parsed event, given
the entry's etag, into the store.  Returns the new store and the `changed`
flag. -/
def syncRemoteEvent (icsEv : Obj) (etag : Str) (st : Store) : Store × Bool :=
  let uid := (objGet icsEv (str "UID")).getD []
  if uid = [] then (st, false)
  else
    let title := jsOr ((objGet icsEv (str "SUMMARY")).getD []) (str "(geen titel)")
    let descVal := (objGet icsEv (str "DESCRIPTION")).getD []
    let dtRaw := jsOr ((objGet icsEv (str "DTSTART")).getD [])
                      ((objGet icsEv (str "DTSTART;VALUE=DATE")).getD [])
    let date := parseDTSTART dtRaw
    let status := if objGet icsEv (str "STATUS") = some (str "CANCELLED")
                  then str "done" else str "pending"
    match selectByUid st uid with
    | [] =>
      (st ++ [{ id := nextId st, title := title, descrip := descVal, date := date,
                status := status, created_by := str "CalDAV",
                priority := str "medium", color := str "#7c5cbf",
                caldav_uid := uid, caldav_etag := etag }], true)
    | task :: _ =>
      if task.caldav_etag ≠ etag then
        (st.map (fun t => if t.id = task.id then
            { t with title := title, descrip := descVal, date := date,
                     status := status, caldav_etag := etag }
          else t), true)
      else (st, false)

/-- One fetched remote entry (href, etag, raw iCalendar body). -/
structure RemoteEntry where
  href : Str
  etag : Str
  ics : Str
deriving Repr, DecidableEq

/-- The merge loop body of `runCalDAVSync` for one entry (src/main.js
210–216): parse the body and sync every parsed event, counting changes. -/
def processEntry (acc : Store × Nat) (entry : RemoteEntry) : Store × Nat :=
  (parseICS entry.ics).foldl
    (fun a ev =>
      let r := syncRemoteEvent ev entry.etag a.1
      (r.1, a.2 + (if r.2 then 1 else 0))) acc

/-- The full merge of a fetched entry list. -/
def mergeEntries (st : Store) (entries : List RemoteEntry) : Store × Nat :=
  entries.foldl processEntry (st, 0)

/-- Decimal digits of a natural number. -/
def natDigits (n : Nat) : Str := Nat.toDigits 10 n

/-- The uid chosen by the push handler (src/main.js 345):
`task.caldav_uid || 'pm-task-' + task.id`. -/
def pushUid (task : Task) : Str :=
  if task.caldav_uid = [] then str "pm-task-" ++ natDigits task.id
  else task.caldav_uid

/-- The push handler's identity-stamping store write (src/main.js 362–369):
`update tasks set caldav_uid = uid, caldav_etag = etag where id = task.id`.
`etag` stands for `result.etag || ''`. -/
def pushStamp (st : Store) (task : Task) (etag : Str) : Store :=
  st.map (fun t => if t.id = task.id then
      { t with caldav_uid := pushUid task, caldav_etag := etag }
    else t)

/-- The SyncIdentity uniqueness invariant: no two distinct rows hold the
same nonempty `caldav_uid`. -/
def UidUnique (st : Store) : Prop :=
  st.Pairwise (fun a b => ¬(a.caldav_uid = b.caldav_uid ∧ a.caldav_uid ≠ []))

/-! ## Transport-level model (src/caldav.js 343–376)

A request is answered by an oracle `Server`; a network/DNS/TLS failure is
a `netErr` (a rejected promise), distinct from every HTTP status. -/

/-- One HTTP request as issued by `httpRequest` (authentication headers are
uniform and carried implicitly). -/
structure Req where
  method : Str
  url : Str
  depth : Option Str
  body : Str
deriving Repr, DecidableEq

/-- A transport outcome. -/
inductive HResp where
  | resp (status : Nat) (location : Option Str) (body : Str)
  | netErr (msg : Str)
deriving Repr, DecidableEq

/-- The remote server, as a deterministic oracle. -/
abbrev Server := Req → HResp

/-! ## XML scraping helpers (src/caldav.js 727–731 and friends)

The source scans XML with regexes such as
`new RegExp('<[^:>]*:?' + tag + '[^>]*>([^<]*)<..')`.  The models below
locate the first occurrence of the tag name case-insensitively, skip to
the `>` closing its tag, and capture the following text; the regexes'
namespace-prefix structure is simplified to this tag-name search.  No
claim depends on the fine structure of these helpers. -/

/-- JavaScript `String.prototype.trim` whitespace (restricted to the ASCII
whitespace the protocol uses). -/
def isWS (c : Char) : Bool := c = ' ' || c = '\t' || c = '\n' || c = '\r'

/-- `.trim()` -/
def trimStr (s : Str) : Str := ((s.dropWhile isWS).reverse.dropWhile isWS).reverse

/-- Simplified `xmlText(xml, tag)`: text content of the first `tag`
element, trimmed; `''` when absent. -/
def xmlText (xml tag : Str) : Str :=
  match splitFirstCI tag xml with
  | none => []
  | some (_, rest) =>
    match splitFirstCI ['>'] rest with
    | none => []
    | some (_, rest2) => trimStr (rest2.takeWhile (fun c => c ≠ '<'))

/-- Simplified extraction of the inside of the first `calendar-home-set`
element (src/caldav.js 476–478, 490–491): the text between the first
occurrence of the tag name and the next one (its closing tag). -/
def calHomeBlock (body : Str) : Option Str :=
  match splitFirstCI (str "calendar-home-set") body with
  | none => none
  | some (_, rest) =>
    match splitFirstCI (str "calendar-home-set") rest with
    | none => none
    | some (blk, _) => some blk

/-- Simplified model of splitting a multistatus body at each `response`
tag (src/caldav.js 511, 608): cut at every occurrence of the tag name,
dropping the remainder of that tag up to `>`.  The fuel argument bounds
the number of cuts by the text length. -/
def tagSplitsFuel (tag : Str) : Nat → Str → List Str
  | 0, xml => [xml]
  | fuel + 1, xml =>
    match splitFirstCI tag xml with
    | none => [xml]
    | some (pre, rest) =>
      pre :: tagSplitsFuel tag fuel ((rest.dropWhile (fun c => c ≠ '>')).drop 1)

/-- Split at every `tag` occurrence. -/
def tagSplits (tag xml : Str) : List Str := tagSplitsFuel tag (xml.length + 1) xml

/-- First `href` element content of a block; `none` when absent or empty
(the regex capture `([^<]+)` requires a nonempty text). -/
def hrefOf (block : Str) : Option Str :=
  match splitFirstCI (str "href") block with
  | none => none
  | some (_, rest) =>
    match splitFirstCI ['>'] rest with
    | none => none
    | some (_, rest2) =>
      match rest2.takeWhile (fun c => c ≠ '<') with
      | [] => none
      | v => some (trimStr v)

/-- `getetag` content with the optional surrounding quotes stripped
(src/caldav.js 615); `''` when absent. -/
def etagOf (block : Str) : Str :=
  match splitFirstCI (str "getetag") block with
  | none => []
  | some (_, rest) =>
    match splitFirstCI ['>'] rest with
    | none => []
    | some (_, rest2) =>
      let r := if rest2.head? = some '"' then rest2.drop 1 else rest2
      trimStr (r.takeWhile (fun c => c ≠ '<' ∧ c ≠ '"'))

/-- The lazily captured inside of the first `calendar-data` element: from
the `>` of its opening tag up to the `<` that begins the first following
`calendar-data` closing tag. -/
def calDataBlock (block : Str) : Option Str :=
  match splitFirstCI (str "calendar-data") block with
  | none => none
  | some (_, rest) =>
    match splitFirstCI ['>'] rest with
    | none => none
    | some (_, rest2) =>
      match splitFirstCI (str "calendar-data") rest2 with
      | none => none
      | some (pre, _) => some (((pre.reverse.dropWhile (fun c => c ≠ '<')).drop 1).reverse)

/-- `parseMultiStatus` (src/caldav.js 605–623): per-response blocks with a
`calendar-data` payload become remote entries; blocks without one are
skipped. -/
def parseMultiStatus (xml : Str) : List RemoteEntry :=
  ((tagSplits (str "response") xml).drop 1).filterMap (fun block =>
    match calDataBlock block with
    | none => none
    | some ics => some { href := (hrefOf block).getD [], etag := etagOf block, ics := ics })

/-! ## Discovery resolver — `discoverCalendarUrl` (src/caldav.js 384–457) -/

/-- `encodeURIComponent`, per the ECMAScript unreserved set, with UTF-8
percent-encoding of everything else. -/
def utf8Bytes (n : Nat) : List Nat :=
  if n < 128 then [n]
  else if n < 2048 then [192 + n / 64, 128 + n % 64]
  else if n < 65536 then [224 + n / 4096, 128 + n / 64 % 64, 128 + n % 64]
  else [240 + n / 262144, 128 + n / 4096 % 64, 128 + n / 64 % 64, 128 + n % 64]

/-- An uppercase hexadecimal digit. -/
def hexUp (n : Nat) : Char :=
  if n < 10 then digitChar n else (['A', 'B', 'C', 'D', 'E', 'F'].getD (n - 10) '?')

/-- Percent-encode one byte. -/
def encByte (b : Nat) : Str := ['%', hexUp (b / 16), hexUp (b % 16)]

/-- Encode one character (`A–Z a–z 0–9 - _ . ! ~ * ' ( )` stay literal). -/
def encURIChar (c : Char) : Str :=
  if ('A' ≤ c && c ≤ 'Z') || ('a' ≤ c && c ≤ 'z') || c.isDigit ||
     (c.toNat ∈ [45, 95, 46, 33, 126, 42, 39, 40, 41]) then [c]
  else ((utf8Bytes c.toNat).map encByte).flatten

/-- `encodeURIComponent`. -/
def encodeURIComponent (s : Str) : Str := cmap encURIChar s

/-- The resource-type PROPFIND body (src/caldav.js 530–531). -/
def PROPFIND_RESOURCETYPE : Str :=
  str "<?xml version=\"1.0\" encoding=\"utf-8\"?>\n<D:propfind xmlns:D=\"DAV:\"><D:prop><D:resourcetype/><D:displayname/></D:prop></D:propfind>"

/-- The calendar-home-set PROPFIND body (src/caldav.js 467–470). -/
def PROPFIND_CALHOME : Str :=
  str "<?xml version=\"1.0\" encoding=\"utf-8\"?>\n<D:propfind xmlns:D=\"DAV:\" xmlns:C=\"urn:ietf:params:xml:ns:caldav\">\n  <D:prop><C:calendar-home-set/></D:prop>\n</D:propfind>"

/-- The depth-0 resource-type probe issued per discovery candidate
(src/caldav.js 401–405). -/
def probeReq (url : Str) : Req :=
  { method := str "PROPFIND", url := url, depth := some (str "0"),
    body := PROPFIND_RESOURCETYPE }

/-- The authentication-failure error thrown on a 401 (src/caldav.js 408). -/
def authFailMsg : Str :=
  str "Authenticatie mislukt (401). Controleer gebruikersnaam en wachtwoord."

/-- A discovery strategy's outcome: a found URL, or an error thrown out of
`discoverCalendarUrl`. -/
inductive DiscOut where
  | ok (url : Str)
  | thrown (msg : Str)
deriving Repr, DecidableEq

/-- Strategy 1 — the direct-candidate loop (src/caldav.js 399–413).
Returns the requests issued, the log entries pushed, and the outcome
(`none` = fall through to strategy 2).  A 207 answers; a 401 throws the
authentication failure (rethrown by the catch since its message contains
`401`); a transport failure whose message contains `401` is rethrown;
any other response or failure moves to the next candidate. -/
def tryDirect (server : Server) : List Str → List Req × List Str × Option DiscOut
  | [] => ([], [], none)
  | url :: rest =>
    let rq := probeReq url
    match server rq with
    | .resp s _ _ =>
      if s = 207 then ([rq], [], some (.ok url))
      else if s = 401 then ([rq], [], some (.thrown authFailMsg))
      else
        let r := tryDirect server rest
        (rq :: r.1, r.2.1, r.2.2)
    | .netErr m =>
      if containsB (str "401") m then ([rq], [], some (.thrown m))
      else
        let r := tryDirect server rest
        (rq :: r.1, (url ++ str ": " ++ m) :: r.2.1, r.2.2)

/-- `${u.protocol}//${u.host}` of an absolute URL (scheme and authority). -/
def urlOrigin (u : Str) : Str :=
  match splitFirstCI (str "://") u with
  | none => u
  | some (pre, rest) => pre ++ str "://" ++ rest.takeWhile (fun c => c ≠ '/')

/-- `new URL(u).pathname` (simplified: the path part after the authority). -/
def urlPathname (u : Str) : Str :=
  match splitFirstCI (str "://") u with
  | none => u
  | some (_, rest) => rest.dropWhile (fun c => c ≠ '/')

/-- Resolve an href against a base URL: absolute hrefs pass through,
path-absolute ones are joined to the base's origin (src/caldav.js 482,
495, 520). -/
def absUrl (baseUrl href : Str) : Str :=
  if (str "http").isPrefixOf href then href else urlOrigin baseUrl ++ href

/-- The block scan of `firstCalendarCollection` (src/caldav.js 514–523):
first block that mentions `calendar`, has an href, and is not the home
itself. -/
def fccScan (homeUrl : Str) : List Str → Str
  | [] => homeUrl
  | b :: bs =>
    if containsB (str "calendar") b then
      match hrefOf b with
      | none => fccScan homeUrl bs
      | some href =>
        if href = urlPathname homeUrl ∨ href = homeUrl then fccScan homeUrl bs
        else absUrl homeUrl href
    else fccScan homeUrl bs

/-- `firstCalendarCollection` (src/caldav.js 502–525): depth-1 probe of the
home URL; on a non-207 answer the home URL itself is the result; a
transport failure propagates as a thrown error. -/
def firstCalendarCollection (server : Server) (homeUrl : Str) :
    List Req × Except Str Str :=
  let rq : Req := { method := str "PROPFIND", url := homeUrl,
                    depth := some (str "1"), body := PROPFIND_RESOURCETYPE }
  match server rq with
  | .netErr m => ([rq], .error m)
  | .resp s _ body =>
    if s = 207 then
      ([rq], .ok (fccScan homeUrl ((tagSplits (str "response") body).drop 1)))
    else ([rq], .ok homeUrl)

/-- `resolveToCalendar` (src/caldav.js 488–500). -/
def resolveToCalendar (server : Server) (url body : Str) :
    List Req × Except Str Str :=
  match calHomeBlock body with
  | none => ([], .ok url)
  | some blk =>
    let href := xmlText blk (str "href")
    if href = [] then ([], .ok url)
    else
      let homeUrl := absUrl url href
      let r := firstCalendarCollection server homeUrl
      match r.2 with
      | .error m => (r.1, .error m)
      | .ok u => (r.1, .ok (jsOr u homeUrl))

/-- Strategy 2 — the well-known redirect chase (src/caldav.js 416–432),
with at most five hops.  `Except.error` is an exception reaching the
strategy's catch (logged by the caller); `.ok none` is a loop break or
exhaustion. -/
def wellKnownLoop (server : Server) (base : Str) :
    Nat → Str → List Req × Except Str (Option Str)
  | 0, _ => ([], .ok none)
  | fuel + 1, url =>
    let rq := probeReq url
    match server rq with
    | .netErr m => ([rq], .error m)
    | .resp s loc body =>
      if s = 207 then
        let r := resolveToCalendar server url body
        match r.2 with
        | .error m => (rq :: r.1, .error m)
        | .ok u => (rq :: r.1, .ok (some u))
      else if s = 301 ∨ s = 302 ∨ s = 308 then
        match loc with
        | none => ([rq], .ok none)
        | some l =>
          let url' := if (str "http").isPrefixOf l then l else absUrl base l
          let r := wellKnownLoop server base fuel url'
          (rq :: r.1, r.2)
      else ([rq], .ok none)

/-- `getCalendarHomeFromPrincipal` (src/caldav.js 463–483): the href is
extracted from inside the `calendar-home-set` element only. -/
def getCalendarHomeFromPrincipal (server : Server) (principalUrl base : Str) :
    List Req × Except Str (Option Str) :=
  let rq : Req := { method := str "PROPFIND", url := principalUrl,
                    depth := some (str "0"), body := PROPFIND_CALHOME }
  match server rq with
  | .netErr m => ([rq], .error m)
  | .resp s _ body =>
    if s = 207 then
      match calHomeBlock body with
      | none => ([rq], .ok none)
      | some blk =>
        let href := xmlText blk (str "href")
        if href = [] then ([rq], .ok none)
        else ([rq], .ok (some (if (str "http").isPrefixOf href then href
                               else base ++ href)))
    else ([rq], .ok none)

/-- Strategy 3 — the principal-candidate loop (src/caldav.js 442–450). -/
def principalLoop (server : Server) (base : Str) :
    List Str → List Req × List Str × Option Str
  | [] => ([], [], none)
  | pUrl :: rest =>
    let r := getCalendarHomeFromPrincipal server pUrl base
    match r.2 with
    | .error m =>
      let r2 := principalLoop server base rest
      (r.1 ++ r2.1, (pUrl ++ str ": " ++ m) :: r2.2.1, r2.2.2)
    | .ok none =>
      let r2 := principalLoop server base rest
      (r.1 ++ r2.1, r2.2.1, r2.2.2)
    | .ok (some calHome) => (r.1, [], some calHome)

/-- The direct candidate URLs of strategy 1 (src/caldav.js 391–397). -/
def directCandidates (base username : Str) : List Str :=
  [base ++ str "/caldav/v2/" ++ username ++ str "/calendar/",
   base ++ str "/caldav/v2/" ++ encodeURIComponent username ++ str "/calendar/",
   base ++ str "/caldav/v2/" ++ username ++ str "/",
   base ++ str "/calendars/" ++ username ++ str "/",
   base ++ str "/calendars/" ++ encodeURIComponent username ++ str "/"]

/-- The principal candidate URLs of strategy 3 (src/caldav.js 435–440). -/
def principalCandidates (base username : Str) : List Str :=
  [base ++ str "/principals/" ++ username ++ str "/",
   base ++ str "/principals/" ++ encodeURIComponent username ++ str "/",
   base ++ str "/principals/users/" ++ username ++ str "/",
   base ++ str "/principals/users/" ++ encodeURIComponent username ++ str "/"]

/-- `discoverCalendarUrl` (src/caldav.js 384–457): the three strategies in
order, with the issued requests traced.  The final failure message carries
the host and the first three log entries. -/
def discoverCalendarUrl (server : Server) (serverHost username : Str) :
    List Req × Except Str Str :=
  let base := str "https://" ++ serverHost
  let r1 := tryDirect server (directCandidates base username)
  match r1.2.2 with
  | some (.ok url) => (r1.1, .ok url)
  | some (.thrown m) => (r1.1, .error m)
  | none =>
    let wk := wellKnownLoop server base 5 (base ++ str "/.well-known/caldav")
    match wk.2 with
    | .ok (some url) => (r1.1 ++ wk.1, .ok url)
    | _ =>
      let log2 := r1.2.1 ++ (match wk.2 with
        | .error m => [str "well-known: " ++ m]
        | _ => [])
      let r3 := principalLoop server base (principalCandidates base username)
      match r3.2.2 with
      | some url => (r1.1 ++ wk.1 ++ r3.1, .ok url)
      | none =>
        (r1.1 ++ wk.1 ++ r3.1,
         .error (str "Kon geen kalender vinden op " ++ serverHost ++
           str ".\nOpen DevTools (Ctrl+Shift+I) voor details.\n" ++
           joinLF ((log2 ++ r3.2.1).take 3)))

/-! ## Collection client — `fetchEvents` (src/caldav.js 535–581) -/

/-- The time-ranged calendar query body, with the window stamps as
parameters (the source computes them from the current time). -/
def queryBodyTR (startStamp endStamp : Str) : Str :=
  str "<?xml version=\"1.0\" encoding=\"utf-8\"?>\n<C:calendar-query xmlns:D=\"DAV:\" xmlns:C=\"urn:ietf:params:xml:ns:caldav\">\n  <D:prop>\n    <D:getetag/>\n    <C:calendar-data/>\n  </D:prop>\n  <C:filter>\n    <C:comp-filter name=\"VCALENDAR\">\n      <C:comp-filter name=\"VEVENT\">\n        <C:time-range start=\"" ++
  startStamp ++ str "\" end=\"" ++ endStamp ++
  str "\"/>\n      </C:comp-filter>\n    </C:comp-filter>\n  </C:filter>\n</C:calendar-query>"

/-- The unfiltered fallback query body (src/caldav.js 567–571). -/
def queryBodyAll : Str :=
  str "<?xml version=\"1.0\" encoding=\"utf-8\"?>\n<C:calendar-query xmlns:D=\"DAV:\" xmlns:C=\"urn:ietf:params:xml:ns:caldav\">\n  <D:prop><D:getetag/><C:calendar-data/></D:prop>\n  <C:filter><C:comp-filter name=\"VCALENDAR\"><C:comp-filter name=\"VEVENT\"/></C:comp-filter></C:filter>\n</C:calendar-query>"

/-- The final failure message of `fetchEvents` (src/caldav.js 580). -/
def reportFailMsg (s : Nat) (url : Str) : Str :=
  str "CalDAV REPORT mislukt: HTTP " ++ natDigits s ++ str ". URL: " ++ url

/-- `fetchEvents` (src/caldav.js 535–581): one time-ranged REPORT; on 207
the parsed entries; on 400/403/501 one unfiltered retry (207 → entries,
any other status → the failure message with the first status and the
URL); any other status → the failure message; a transport failure
propagates. -/
def fetchEvents (server : Server) (calendarUrl startStamp endStamp : Str) :
    List Req × Except Str (List RemoteEntry) :=
  let rq1 : Req := { method := str "REPORT", url := calendarUrl,
                     depth := some (str "1"),
                     body := queryBodyTR startStamp endStamp }
  match server rq1 with
  | .netErr m => ([rq1], .error m)
  | .resp s _ body =>
    if s = 207 then ([rq1], .ok (parseMultiStatus body))
    else if s = 400 ∨ s = 403 ∨ s = 501 then
      let rq2 : Req := { method := str "REPORT", url := calendarUrl,
                         depth := some (str "1"), body := queryBodyAll }
      match server rq2 with
      | .netErr m => ([rq1, rq2], .error m)
      | .resp s2 _ body2 =>
        if s2 = 207 then ([rq1, rq2], .ok (parseMultiStatus body2))
        else ([rq1, rq2], .error (reportFailMsg s calendarUrl))
    else ([rq1], .error (reportFailMsg s calendarUrl))

/-! ## Scheduler interleaving model (src/main.js 176–230, 318–321)

`runCalDAVSync` is an async function suspended at each await; the
`caldav:sync-now` handler and the interval timer both call it.  The
function reads and writes no "currently running" flag — its only early
returns test the configuration and the database handle (src/main.js
187–192) — so a trigger may start a new run in every state. -/

/-- The suspension/effect skeleton of one run: the awaited remote fetch,
then the store writes of the merge loop. -/
inductive RunStep where
  | fetch
  | write
deriving Repr, DecidableEq

/-- The steps of one run. -/
def runScript : List RunStep := [RunStep.fetch, RunStep.write]

/-- The pending step lists of the runs currently in flight. -/
structure SchedState where
  active : List (List RunStep)
deriving Repr, DecidableEq

/-- The guard a trigger would have to consult before starting a run: the
code has none, so starting is enabled in every state. -/
def startEnabled (_s : SchedState) : Bool := true

/-- One scheduler transition: a timer or manual trigger starts a fresh
run, or some in-flight run performs its next step. -/
inductive SchedStep : SchedState → SchedState → Prop where
  | start (s : SchedState) (h : startEnabled s = true) :
      SchedStep s ⟨runScript :: s.active⟩
  | step (pre post : List (List RunStep)) (stp : RunStep) (rest : List RunStep) :
      SchedStep ⟨pre ++ (stp :: rest) :: post⟩ ⟨pre ++ rest :: post⟩

/-- Reachability from the idle state. -/
inductive SchedReach : SchedState → Prop where
  | init : SchedReach ⟨[]⟩
  | next {s s' : SchedState} : SchedReach s → SchedStep s s' → SchedReach s'

/-!
# Theorems

## A. The escape/unescape pair
-/

theorem escICS_cons (c : Char) (s : Str) :
    escICS (c :: s) = escChar c ++ escICS s := by
  by_cases h1 : c = '\\'
  · subst h1; rfl
  · by_cases h2 : c = ';'
    · subst h2; rfl
    · by_cases h3 : c = ','
      · subst h3; rfl
      · by_cases h4 : c = '\n'
        · subst h4; rfl
        · simp [escICS, escBS, escSemi, escComma, escNl, escChar, h1, h2, h3, h4]

/-- `escICS` maps each character independently. -/
theorem escICS_eq_cmap (s : Str) : escICS s = cmap escChar s := by
  induction s with
  | nil => rfl
  | cons c t ih => rw [escICS_cons, ih]; rfl

theorem unNl_cons_ne (c : Char) (X : Str) (h : c ≠ '\\') :
    unNl (c :: X) = c :: unNl X := by
  cases X with
  | nil => rfl
  | cons x t => simp [unNl, h]

theorem unNl_bs (X : Str) (h : X.head? ≠ some 'n') :
    unNl ('\\' :: X) = '\\' :: unNl X := by
  cases X with
  | nil => rfl
  | cons x t =>
    have hx : x ≠ 'n' := by
      intro hx
      exact h (by simp [hx])
    simp [unNl, hx]

theorem unComma_cons_ne (c : Char) (X : Str) (h : c ≠ '\\') :
    unComma (c :: X) = c :: unComma X := by
  cases X with
  | nil => rfl
  | cons x t => simp [unComma, h]

theorem unComma_bs (X : Str) (h : X.head? ≠ some ',') :
    unComma ('\\' :: X) = '\\' :: unComma X := by
  cases X with
  | nil => rfl
  | cons x t =>
    have hx : x ≠ ',' := by
      intro hx
      exact h (by simp [hx])
    simp [unComma, hx]

theorem unSemi_cons_ne (c : Char) (X : Str) (h : c ≠ '\\') :
    unSemi (c :: X) = c :: unSemi X := by
  cases X with
  | nil => rfl
  | cons x t => simp [unSemi, h]

theorem unSemi_bs (X : Str) (h : X.head? ≠ some ';') :
    unSemi ('\\' :: X) = '\\' :: unSemi X := by
  cases X with
  | nil => rfl
  | cons x t =>
    have hx : x ≠ ';' := by
      intro hx
      exact h (by simp [hx])
    simp [unSemi, hx]

theorem unBS_cons_ne (c : Char) (X : Str) (h : c ≠ '\\') :
    unBS (c :: X) = c :: unBS X := by
  cases X with
  | nil => rfl
  | cons x t => simp [unBS, h]

theorem head?_append_of_ne_nil {l l' : Str} (h : l ≠ []) :
    (l ++ l').head? = l.head? := by
  cases l with
  | nil => exact absurd rfl h
  | cons a t => rfl

theorem escChar_ne_nil (c : Char) : escChar c ≠ [] := by
  unfold escChar; split_ifs <;> simp

theorem escChar_head_ne (c d : Char) (hc : c ≠ d) (hd : d ≠ '\\') :
    (escChar c).head? ≠ some d := by
  unfold escChar
  split_ifs <;> simp [Ne.symm hd, hc]

theorem noBsN_tail {c : Char} {t : Str} (h : noBsN (c :: t) = true) :
    noBsN t = true := by
  cases t with
  | nil => rfl
  | cons x u =>
    simp only [noBsN, Bool.and_eq_true] at h
    exact h.2

theorem noBsN_pair {c : Char} {t : Str} (h : noBsN (c :: t) = true)
    (hc : c = '\\') : t.head? ≠ some 'n' := by
  cases t with
  | nil => simp
  | cons x u =>
    simp only [noBsN, Bool.and_eq_true, Bool.not_eq_true', Bool.and_eq_false_iff,
      decide_eq_false_iff_not] at h
    rcases h.1 with h1 | h1
    · exact absurd hc h1
    · simp [h1]

theorem unNl_cmap : ∀ s : Str, noBsN s = true →
    unNl (cmap escChar s) = cmap escChar1 s := by
  intro s
  induction s with
  | nil => intro _; rfl
  | cons c t ih =>
    intro h
    have ht := noBsN_tail h
    by_cases h1 : c = '\\'
    · subst h1
      have hhead : (cmap escChar t).head? ≠ some 'n' := by
        cases t with
        | nil => simp [cmap]
        | cons c' t' =>
          have hc' : t'.head? = t'.head? := rfl
          have hcn : c' ≠ 'n' := by
            have := noBsN_pair h rfl
            simp at this
            exact this
          show (escChar c' ++ cmap escChar t').head? ≠ some 'n'
          rw [head?_append_of_ne_nil (escChar_ne_nil c')]
          exact escChar_head_ne c' 'n' hcn (by decide)
      show unNl ('\\' :: '\\' :: cmap escChar t) = escChar1 '\\' ++ cmap escChar1 t
      rw [show unNl ('\\' :: '\\' :: cmap escChar t)
            = '\\' :: unNl ('\\' :: cmap escChar t) by simp [unNl]]
      rw [unNl_bs _ hhead, ih ht]
      rfl
    · by_cases h2 : c = ';'
      · subst h2
        show unNl ('\\' :: ';' :: cmap escChar t) = escChar1 ';' ++ cmap escChar1 t
        rw [show unNl ('\\' :: ';' :: cmap escChar t)
              = '\\' :: unNl (';' :: cmap escChar t) by simp [unNl]]
        rw [unNl_cons_ne _ _ (by decide), ih ht]
        rfl
      · by_cases h3 : c = ','
        · subst h3
          show unNl ('\\' :: ',' :: cmap escChar t) = escChar1 ',' ++ cmap escChar1 t
          rw [show unNl ('\\' :: ',' :: cmap escChar t)
                = '\\' :: unNl (',' :: cmap escChar t) by simp [unNl]]
          rw [unNl_cons_ne _ _ (by decide), ih ht]
          rfl
        · by_cases h4 : c = '\n'
          · subst h4
            show unNl ('\\' :: 'n' :: cmap escChar t) = escChar1 '\n' ++ cmap escChar1 t
            rw [show unNl ('\\' :: 'n' :: cmap escChar t)
                  = '\n' :: unNl (cmap escChar t) by simp [unNl]]
            rw [ih ht]
            rfl
          · show unNl (escChar c ++ cmap escChar t) = escChar1 c ++ cmap escChar1 t
            rw [show escChar c = [c] by unfold escChar; simp [h1, h2, h3, h4]]
            rw [show escChar1 c = [c] by unfold escChar1; simp [h1, h2, h3, h4]]
            simp only [List.singleton_append]
            rw [unNl_cons_ne _ _ h1, ih ht]

theorem escChar1_head_ne_comma (c : Char) : (escChar1 c).head? ≠ some ',' := by
  unfold escChar1
  split_ifs <;> simp_all

theorem unComma_cmap : ∀ s : Str,
    unComma (cmap escChar1 s) = cmap escChar2 s := by
  intro s
  induction s with
  | nil => rfl
  | cons c t ih =>
    have hhead : (cmap escChar1 t).head? ≠ some ',' := by
      cases t with
      | nil => simp [cmap]
      | cons c' t' =>
        show (escChar1 c' ++ cmap escChar1 t').head? ≠ some ','
        rw [head?_append_of_ne_nil (by unfold escChar1; split_ifs <;> simp)]
        exact escChar1_head_ne_comma c'
    by_cases h1 : c = '\\'
    · subst h1
      show unComma ('\\' :: '\\' :: cmap escChar1 t) = escChar2 '\\' ++ cmap escChar2 t
      rw [show unComma ('\\' :: '\\' :: cmap escChar1 t)
            = '\\' :: unComma ('\\' :: cmap escChar1 t) by simp [unComma]]
      rw [unComma_bs _ hhead, ih]
      rfl
    · by_cases h2 : c = ';'
      · subst h2
        show unComma ('\\' :: ';' :: cmap escChar1 t) = escChar2 ';' ++ cmap escChar2 t
        rw [show unComma ('\\' :: ';' :: cmap escChar1 t)
              = '\\' :: unComma (';' :: cmap escChar1 t) by simp [unComma]]
        rw [unComma_cons_ne _ _ (by decide), ih]
        rfl
      · by_cases h3 : c = ','
        · subst h3
          show unComma ('\\' :: ',' :: cmap escChar1 t) = escChar2 ',' ++ cmap escChar2 t
          rw [show unComma ('\\' :: ',' :: cmap escChar1 t)
                = ',' :: unComma (cmap escChar1 t) by simp [unComma]]
          rw [ih]
          rfl
        · show unComma (escChar1 c ++ cmap escChar1 t) = escChar2 c ++ cmap escChar2 t
          rw [show escChar1 c = [c] by unfold escChar1; simp [h1, h2, h3]]
          rw [show escChar2 c = [c] by unfold escChar2; simp [h1, h2]]
          simp only [List.singleton_append]
          rw [unComma_cons_ne _ _ h1, ih]

theorem escChar2_head_ne_semi (c : Char) : (escChar2 c).head? ≠ some ';' := by
  unfold escChar2
  split_ifs <;> simp_all

theorem unSemi_cmap : ∀ s : Str,
    unSemi (cmap escChar2 s) = cmap escChar3 s := by
  intro s
  induction s with
  | nil => rfl
  | cons c t ih =>
    have hhead : (cmap escChar2 t).head? ≠ some ';' := by
      cases t with
      | nil => simp [cmap]
      | cons c' t' =>
        show (escChar2 c' ++ cmap escChar2 t').head? ≠ some ';'
        rw [head?_append_of_ne_nil (by unfold escChar2; split_ifs <;> simp)]
        exact escChar2_head_ne_semi c'
    by_cases h1 : c = '\\'
    · subst h1
      show unSemi ('\\' :: '\\' :: cmap escChar2 t) = escChar3 '\\' ++ cmap escChar3 t
      rw [show unSemi ('\\' :: '\\' :: cmap escChar2 t)
            = '\\' :: unSemi ('\\' :: cmap escChar2 t) by simp [unSemi]]
      rw [unSemi_bs _ hhead, ih]
      rfl
    · by_cases h2 : c = ';'
      · subst h2
        show unSemi ('\\' :: ';' :: cmap escChar2 t) = escChar3 ';' ++ cmap escChar3 t
        rw [show unSemi ('\\' :: ';' :: cmap escChar2 t)
              = ';' :: unSemi (cmap escChar2 t) by simp [unSemi]]
        rw [ih]
        rfl
      · show unSemi (escChar2 c ++ cmap escChar2 t) = escChar3 c ++ cmap escChar3 t
        rw [show escChar2 c = [c] by unfold escChar2; simp [h1, h2]]
        rw [show escChar3 c = [c] by unfold escChar3; simp [h1]]
        simp only [List.singleton_append]
        rw [unSemi_cons_ne _ _ h1, ih]

theorem unBS_cmap : ∀ s : Str, unBS (cmap escChar3 s) = s := by
  intro s
  induction s with
  | nil => rfl
  | cons c t ih =>
    by_cases h1 : c = '\\'
    · subst h1
      show unBS ('\\' :: '\\' :: cmap escChar3 t) = '\\' :: t
      rw [show unBS ('\\' :: '\\' :: cmap escChar3 t)
            = '\\' :: unBS (cmap escChar3 t) by simp [unBS]]
      rw [ih]
    · show unBS (escChar3 c ++ cmap escChar3 t) = c :: t
      rw [show escChar3 c = [c] by unfold escChar3; simp [h1]]
      simp only [List.singleton_append]
      rw [unBS_cons_ne _ _ h1, ih]

/-- On strings without a backslash directly followed by `n`, the value
unescaping of `parseICS` inverts the value escaping of `generateICS`. -/
theorem unesc_esc (s : Str) (h : noBsN s = true) : unescICS (escICS s) = s := by
  rw [escICS_eq_cmap]
  unfold unescICS
  rw [unNl_cmap s h, unComma_cmap, unSemi_cmap, unBS_cmap]

theorem unNl_id : ∀ s : Str, '\\' ∉ s → unNl s = s := by
  intro s
  induction s with
  | nil => intro _; rfl
  | cons c t ih =>
    intro h
    have hc : c ≠ '\\' := by intro hc; exact h (by simp [hc])
    have ht : '\\' ∉ t := fun hm => h (List.mem_cons_of_mem _ hm)
    rw [unNl_cons_ne _ _ hc, ih ht]

theorem unComma_id : ∀ s : Str, '\\' ∉ s → unComma s = s := by
  intro s
  induction s with
  | nil => intro _; rfl
  | cons c t ih =>
    intro h
    have hc : c ≠ '\\' := by intro hc; exact h (by simp [hc])
    have ht : '\\' ∉ t := fun hm => h (List.mem_cons_of_mem _ hm)
    rw [unComma_cons_ne _ _ hc, ih ht]

theorem unSemi_id : ∀ s : Str, '\\' ∉ s → unSemi s = s := by
  intro s
  induction s with
  | nil => intro _; rfl
  | cons c t ih =>
    intro h
    have hc : c ≠ '\\' := by intro hc; exact h (by simp [hc])
    have ht : '\\' ∉ t := fun hm => h (List.mem_cons_of_mem _ hm)
    rw [unSemi_cons_ne _ _ hc, ih ht]

theorem unBS_id : ∀ s : Str, '\\' ∉ s → unBS s = s := by
  intro s
  induction s with
  | nil => intro _; rfl
  | cons c t ih =>
    intro h
    have hc : c ≠ '\\' := by intro hc; exact h (by simp [hc])
    have ht : '\\' ∉ t := fun hm => h (List.mem_cons_of_mem _ hm)
    rw [unBS_cons_ne _ _ hc, ih ht]

/-- The value unescaping is the identity on backslash-free strings. -/
theorem unescICS_id (s : Str) (h : '\\' ∉ s) : unescICS s = s := by
  unfold unescICS
  rw [unNl_id s h, unComma_id s h, unSemi_id s h, unBS_id s h]

theorem cmap_mem {f : Char → Str} {c' : Char} :
    ∀ {s : Str}, c' ∈ cmap f s → ∃ c ∈ s, c' ∈ f c := by
  intro s
  induction s with
  | nil => intro h; simp [cmap] at h
  | cons c t ih =>
    intro h
    rcases List.mem_append.1 h with h | h
    · exact ⟨c, by simp, h⟩
    · obtain ⟨d, hd, hd2⟩ := ih h
      exact ⟨d, by simp [hd], hd2⟩

/-- The escaped text never contains a newline. -/
theorem escICS_no_nl (s : Str) : '\n' ∉ escICS s := by
  rw [escICS_eq_cmap]
  intro h
  obtain ⟨c, _, hc⟩ := cmap_mem h
  revert hc
  unfold escChar
  split_ifs with h1 h2 h3 h4 <;> simp_all
  intro hc
  exact h4 hc.symm

/-- The escaped text contains a carriage return only if the input does. -/
theorem escICS_cr {s : Str} (h : '\r' ∈ escICS s) : '\r' ∈ s := by
  rw [escICS_eq_cmap] at h
  obtain ⟨c, hc1, hc2⟩ := cmap_mem h
  revert hc2
  unfold escChar
  split_ifs <;> simp_all
  intro hc
  rw [hc.symm] at hc1
  exact hc1

/-! ## B. Substring search: exact splits and non-containment -/

theorem nil_isPrefixOf (s : Str) : List.isPrefixOf [] s = true := by
  simp [List.isPrefixOf]

theorem isPrefixOf_append_self (pat y : Str) :
    pat.isPrefixOf (pat ++ y) = true := by
  induction pat with
  | nil => exact nil_isPrefixOf _
  | cons a as ih => simp [List.isPrefixOf, ih]

theorem eq_append_drop_of_isPrefixOf : ∀ {pat s : Str},
    pat.isPrefixOf s = true → s = pat ++ s.drop pat.length := by
  intro pat
  induction pat with
  | nil => intro s _; simp
  | cons a as ih =>
    intro s h
    cases s with
    | nil => simp [List.isPrefixOf] at h
    | cons b bs =>
      simp only [List.isPrefixOf, Bool.and_eq_true, beq_iff_eq] at h
      have := ih h.2
      simp only [List.cons_append, List.length_cons, List.drop_succ_cons]
      rw [h.1, ← this]

theorem isPrefixOf_length_le {pat s : Str} (h : pat.isPrefixOf s = true) :
    pat.length ≤ s.length := by
  have := eq_append_drop_of_isPrefixOf h
  rw [this]
  simp

theorem eq_of_isPrefixOf_length {pat s : Str} (h : pat.isPrefixOf s = true)
    (hl : s.length ≤ pat.length) : pat = s := by
  have he := eq_append_drop_of_isPrefixOf h
  have : s.drop pat.length = [] := List.drop_eq_nil_of_le hl
  rw [this] at he
  simp at he
  exact he.symm

theorem take_isPrefixOf (n : Nat) : ∀ s : Str, (s.take n).isPrefixOf s = true := by
  induction n with
  | zero => intro s; simp [List.isPrefixOf]
  | succ n ih =>
    intro s
    cases s with
    | nil => rfl
    | cons b bs => simp [List.isPrefixOf, ih]

theorem eq_take_of_isPrefixOf {pat s : Str} (h : pat.isPrefixOf s = true) :
    pat = s.take pat.length := by
  have he := eq_append_drop_of_isPrefixOf h
  conv_lhs => rw [show pat = (pat ++ s.drop pat.length).take pat.length by
    simp]
  rw [← he]

/-- Of two prefixes of the same string, the shorter is a prefix of the
longer. -/
theorem isPrefixOf_of_isPrefixOf_le {a b c : Str} (ha : a.isPrefixOf c = true)
    (hb : b.isPrefixOf c = true) (hl : a.length ≤ b.length) :
    a.isPrefixOf b = true := by
  have h1 := eq_take_of_isPrefixOf ha
  have h2 := eq_take_of_isPrefixOf hb
  have h3 : a = b.take a.length := by
    conv_rhs => rw [h2]
    rw [List.take_take, inf_eq_left.2 hl]
    exact h1
  rw [h3]
  exact take_isPrefixOf _ _

theorem isPrefixOf_cons_elim {pat : Str} {c : Char} {t : Str}
    (h : pat.isPrefixOf (c :: t) = true) :
    pat = [] ∨ ∃ pt, pat = c :: pt ∧ pt.isPrefixOf t = true := by
  cases pat with
  | nil => exact Or.inl rfl
  | cons a as =>
    simp only [List.isPrefixOf, Bool.and_eq_true, beq_iff_eq] at h
    exact Or.inr ⟨as, by rw [h.1], h.2⟩

/-- A prefix of `x ++ y` either fits inside `x` or covers all of `x`. -/
theorem isPrefixOf_append_cases : ∀ {x pat y : Str},
    pat.isPrefixOf (x ++ y) = true →
    pat.isPrefixOf x = true ∨
      (x.isPrefixOf pat = true ∧ (pat.drop x.length).isPrefixOf y = true) := by
  intro x
  induction x with
  | nil => intro pat y h; exact Or.inr ⟨nil_isPrefixOf _, h⟩
  | cons b bs ih =>
    intro pat y h
    cases pat with
    | nil => exact Or.inl (nil_isPrefixOf _)
    | cons a as =>
      simp only [List.cons_append, List.isPrefixOf, Bool.and_eq_true,
        beq_iff_eq] at h ⊢
      rcases ih h.2 with h' | h'
      · exact Or.inl ⟨h.1, h'⟩
      · refine Or.inr ⟨⟨h.1.symm, h'.1⟩, ?_⟩
        simpa using h'.2

theorem containsB_iff {pat : Str} : ∀ {s : Str},
    containsB pat s = true ↔ ∃ i, pat.isPrefixOf (s.drop i) = true := by
  intro s
  induction s with
  | nil =>
    simp only [containsB]
    constructor
    · intro h; exact ⟨0, h⟩
    · rintro ⟨i, hi⟩; simpa using hi
  | cons c t ih =>
    simp only [containsB, Bool.or_eq_true]
    constructor
    · rintro (h | h)
      · exact ⟨0, h⟩
      · obtain ⟨i, hi⟩ := ih.1 h
        exact ⟨i + 1, hi⟩
    · rintro ⟨i, hi⟩
      cases i with
      | zero => exact Or.inl hi
      | succ j => exact Or.inr (ih.2 ⟨j, hi⟩)

theorem containsB_tail {pat : Str} {c : Char} {t : Str}
    (h : containsB pat (c :: t) = false) : containsB pat t = false := by
  simp only [containsB, Bool.or_eq_false_iff] at h
  exact h.2

theorem containsB_sub {pat s : Str} (h : containsB pat s = true) :
    ∀ c ∈ pat, c ∈ s := by
  intro c hc
  obtain ⟨i, hi⟩ := containsB_iff.1 h
  have := eq_append_drop_of_isPrefixOf hi
  have hmem : c ∈ s.drop i := by
    rw [this]
    exact List.mem_append.2 (Or.inl hc)
  exact List.mem_of_mem_drop hmem

/-- Non-containment when some character of the pattern never occurs. -/
theorem not_containsB_of_char {pat s : Str} {c : Char} (hc : c ∈ pat)
    (hs : c ∉ s) : containsB pat s = false := by
  by_contra h
  simp only [Bool.not_eq_false] at h
  exact hs (containsB_sub h c hc)

/-- Occurrence in an append: inside the left part, inside the right part,
or straddling the seam. -/
theorem containsB_append_cases {pat x y : Str}
    (h : containsB pat (x ++ y) = true) :
    containsB pat x = true ∨ containsB pat y = true ∨
      ∃ i < x.length, (x.drop i).isPrefixOf pat = true ∧
        (pat.drop (x.length - i)).isPrefixOf y = true := by
  obtain ⟨i, hi⟩ := containsB_iff.1 h
  rw [List.drop_append_eq_append_drop] at hi
  by_cases hix : i < x.length
  · rcases isPrefixOf_append_cases hi with h' | h'
    · exact Or.inl (containsB_iff.2 ⟨i, h'⟩)
    · refine Or.inr (Or.inr ⟨i, hix, h'.1, ?_⟩)
      have hlen : (x.drop i).length = x.length - i := by simp
      rw [← hlen]
      have : i - x.length = 0 := by omega
      rw [this] at h'
      simpa using h'.2
  · have hx : x.drop i = [] := List.drop_eq_nil_of_le (by omega)
    rw [hx, List.nil_append] at hi
    exact Or.inr (Or.inl (containsB_iff.2 ⟨i - x.length, hi⟩))

/-- Refute containment in an append from per-part non-containment plus a
(decidable) seam check. -/
theorem not_containsB_append {pat x y : Str}
    (hx : containsB pat x = false) (hy : containsB pat y = false)
    (hseam : ∀ i, i < x.length → (x.drop i).isPrefixOf pat = false) :
    containsB pat (x ++ y) = false := by
  by_contra h
  simp only [Bool.not_eq_false] at h
  rcases containsB_append_cases h with h' | h' | ⟨i, hi, h1, _⟩
  · rw [h'] at hx; cases hx
  · rw [h'] at hy; cases hy
  · rw [hseam i hi] at h1; cases h1

/-- A pattern without a newline cannot straddle a newline: containment in
`x ++ '\n' :: y` is containment in `x` or in `y`. -/
theorem containsB_nl_split {pat x y : Str} (hnl : '\n' ∉ pat)
    (h : containsB pat (x ++ '\n' :: y) = true) :
    containsB pat x = true ∨ containsB pat y = true := by
  rcases containsB_append_cases h with h' | h' | ⟨i, hi, h1, h2⟩
  · exact Or.inl h'
  · simp only [containsB, Bool.or_eq_true] at h'
    rcases h' with h' | h'
    · rcases isPrefixOf_cons_elim h' with rfl | ⟨pt, rfl, _⟩
      · exact Or.inl (containsB_iff.2 ⟨0, by simp [nil_isPrefixOf]⟩)
      · exact absurd (List.mem_cons_self _ _) hnl
    · exact Or.inr h'
  · -- the straddling occurrence would put pat's character at the newline
    by_cases hk : x.length - i < pat.length
    · exfalso
      have hne : pat.drop (x.length - i) ≠ [] := by
        intro hd
        have := List.length_drop (x.length - i) pat
        rw [hd] at this
        simp at this
        omega
      cases hdrop : pat.drop (x.length - i) with
      | nil => exact hne hdrop
      | cons d r =>
        rw [hdrop] at h2
        rcases isPrefixOf_cons_elim h2 with habs | ⟨pt, hpt, _⟩
        · cases habs
        · have hd : d = '\n' := by
            have := congrArg (fun l => l.head?) hpt
            simpa using this
          have : d ∈ pat := by
            have : d ∈ pat.drop (x.length - i) := by rw [hdrop]; simp
            exact List.mem_of_mem_drop this
          rw [hd] at this
          exact hnl this
    · -- the pattern ends exactly at (or before) the seam: it sits inside x
      have hxi : (x.drop i).length = x.length - i := by simp
      have hple : pat.length ≤ (x.drop i).length := by omega
      have heq := eq_of_isPrefixOf_length h1 hple
      refine Or.inl (containsB_iff.2 ⟨i, ?_⟩)
      rw [← heq]
      have hps := isPrefixOf_append_self pat []
      simpa using hps

/-! ### Bridging the case-insensitive scan to plain search on lowered text -/

theorem low_append (a b : Str) : low (a ++ b) = low a ++ low b := by
  simp [low]

theorem lowChar_cases (c : Char) :
    lowChar c = c ∨ lowChar c ∈ upLow.map (fun p => p.2) := by
  unfold lowChar
  cases hf : upLow.find? (fun p => p.1 = c) with
  | none => left; rfl
  | some p =>
    right
    show (((some p).map (fun q => q.2)).getD c) ∈ _
    exact List.mem_map.2 ⟨p, List.mem_of_find?_eq_some hf, rfl⟩

theorem isPrefixCI_low : ∀ pat s : Str,
    isPrefixCI pat s = (low pat).isPrefixOf (low s) := by
  intro pat
  induction pat with
  | nil => intro s; simp [isPrefixCI, low, nil_isPrefixOf]
  | cons a as ih =>
    intro s
    cases s with
    | nil => rfl
    | cons b bs =>
      have h0 : List.isPrefixOf (low (a :: as)) (low (b :: bs))
          = (lowChar a == lowChar b && List.isPrefixOf (low as) (low bs)) := rfl
      show (ciEq a b && isPrefixCI as bs) = _
      rw [h0, ih bs]
      unfold ciEq
      by_cases hab : lowChar a = lowChar b <;> simp [hab]

theorem splitFirstCI_isSome : ∀ pat s : Str,
    (splitFirstCI pat s).isSome = containsB (low pat) (low s) := by
  intro pat s
  induction s with
  | nil =>
    unfold splitFirstCI
    rw [isPrefixCI_low]
    have hc : containsB (low pat) (low ([] : Str))
        = List.isPrefixOf (low pat) (low ([] : Str)) := rfl
    rw [hc]
    cases h : List.isPrefixOf (low pat) (low ([] : Str)) <;> simp [h]
  | cons c t ih =>
    unfold splitFirstCI
    have hcons : containsB (low pat) (low (c :: t))
        = (List.isPrefixOf (low pat) (low (c :: t)) || containsB (low pat) (low t)) :=
      rfl
    by_cases h : isPrefixCI pat (c :: t) = true
    · have hl : List.isPrefixOf (low pat) (low (c :: t)) = true := by
        rw [← isPrefixCI_low]
        exact h
      simp only [h, if_true, Option.isSome_some]
      rw [hcons, hl]
      simp
    · have hb : isPrefixCI pat (c :: t) = false := by
        revert h; cases isPrefixCI pat (c :: t) <;> simp
      have hl : List.isPrefixOf (low pat) (low (c :: t)) = false := by
        rw [← isPrefixCI_low]
        exact hb
      simp only [hb, Bool.false_eq_true, if_false]
      have hmap : ((splitFirstCI pat t).map
          (fun p => (c :: p.1, p.2))).isSome = (splitFirstCI pat t).isSome := by
        cases splitFirstCI pat t <;> rfl
      rw [hmap, ih, hcons, hl]
      simp

theorem splitFirstCI_eq_none {pat s : Str}
    (h : containsB (low pat) (low s) = false) : splitFirstCI pat s = none := by
  have := splitFirstCI_isSome pat s
  rw [h] at this
  exact Option.not_isSome_iff_eq_none.1 (by rw [this]; simp)

theorem isPrefixCI_append_self (pat y : Str) :
    isPrefixCI pat (pat ++ y) = true := by
  rw [isPrefixCI_low, low_append]
  exact isPrefixOf_append_self _ _

theorem low_length (s : Str) : (low s).length = s.length := by simp [low]

theorem low_dropLast : ∀ s : Str, low s.dropLast = (low s).dropLast := by
  intro s
  induction s with
  | nil => rfl
  | cons c t ih =>
    cases t with
    | nil => rfl
    | cons d r =>
      show low (c :: (d :: r).dropLast) = (lowChar c :: low (d :: r)).dropLast
      rw [show (lowChar c :: low (d :: r)).dropLast
            = lowChar c :: (low (d :: r)).dropLast by
        cases r <;> rfl]
      rw [show low (c :: (d :: r).dropLast) = lowChar c :: low ((d :: r).dropLast)
        from rfl]
      rw [ih]

/-- The exact-split law of the case-insensitive scan: if no (case-folded)
occurrence of the pattern starts strictly before the marked one, the scan
splits exactly there. -/
theorem splitFirstCI_exact : ∀ (X : Str) {pat Y : Str}, pat ≠ [] →
    containsB (low pat) (low (X ++ pat.dropLast)) = false →
    splitFirstCI pat (X ++ pat ++ Y) = some (X, Y) := by
  intro X
  induction X with
  | nil =>
    intro pat Y hp h
    show splitFirstCI pat ([] ++ pat ++ Y) = some ([], Y)
    simp only [List.nil_append]
    cases hpy : pat ++ Y with
    | nil =>
      exfalso
      apply hp
      cases pat with
      | nil => rfl
      | cons a b => simp at hpy
    | cons d ds =>
      have hpre : isPrefixCI pat (d :: ds) = true := by
        rw [← hpy]
        exact isPrefixCI_append_self pat Y
      unfold splitFirstCI
      simp only [hpre, if_true]
      have hdrop : (d :: ds).drop pat.length = Y := by
        rw [← hpy]
        exact List.drop_left pat Y
      rw [hdrop]
  | cons c X' ih =>
    intro pat Y hp h
    show splitFirstCI pat (c :: (X' ++ pat ++ Y)) = some (c :: X', Y)
    have hnotpre : isPrefixCI pat (c :: (X' ++ pat ++ Y)) = false := by
      by_contra hc
      have hc2 : isPrefixCI pat (c :: (X' ++ pat ++ Y)) = true := by
        revert hc; cases isPrefixCI pat (c :: (X' ++ pat ++ Y)) <;> simp
      rw [isPrefixCI_low] at hc2
      -- the case-folded pattern would be a prefix of the folded text,
      -- hence sit inside (c :: X') ++ pat.dropLast
      have hstep : List.isPrefixOf (low ((c :: X') ++ pat.dropLast))
          (low (c :: (X' ++ pat ++ Y))) = true := by
        have hdec : (c :: X') ++ pat.dropLast ++
            (pat.getLast hp :: Y) = c :: (X' ++ pat ++ Y) := by
          have hpl := List.dropLast_append_getLast hp
          simp only [List.cons_append, List.append_assoc]
          rw [show pat.dropLast ++ pat.getLast hp :: Y
                = (pat.dropLast ++ [pat.getLast hp]) ++ Y by simp]
          rw [hpl]
        rw [← hdec]
        rw [low_append ((c :: X') ++ pat.dropLast) (pat.getLast hp :: Y)]
        exact isPrefixOf_append_self _ _
      have hlen : (low pat).length ≤ (low ((c :: X') ++ pat.dropLast)).length := by
        rw [low_length, low_length]
        simp only [List.cons_append, List.length_cons, List.length_append]
        have : pat.dropLast.length = pat.length - 1 := List.length_dropLast pat
        have hplen : 1 ≤ pat.length := by
          cases pat with
          | nil => exact absurd rfl hp
          | cons a b => simp
        omega
      have hin := isPrefixOf_of_isPrefixOf_le hc2 hstep hlen
      have : containsB (low pat) (low ((c :: X') ++ pat.dropLast)) = true :=
        containsB_iff.2 ⟨0, by simpa using hin⟩
      rw [this] at h
      cases h
    unfold splitFirstCI
    simp only [hnotpre, Bool.false_eq_true, if_false]
    have h' : containsB (low pat) (low (X' ++ pat.dropLast)) = false := by
      have hl : low ((c :: X') ++ pat.dropLast)
          = lowChar c :: low (X' ++ pat.dropLast) := by
        simp [low]
      rw [hl] at h
      exact containsB_tail h
    rw [ih hp h']
    rfl

/-! ## C. The document pipeline of `parseICS` on generated text -/

theorem normCR_cons_ne (c : Char) (X : Str) (h : c ≠ '\r') :
    normCR (c :: X) = c :: normCR X := by
  cases X with
  | nil => simp [normCR, h]
  | cons x t => simp [normCR, h]

theorem normCR_crlf (rest : Str) :
    normCR ('\r' :: '\n' :: rest) = '\n' :: normCR rest := by
  simp [normCR]

theorem normCR_line : ∀ (l : Str) (rest : Str), '\r' ∉ l →
    normCR (l ++ '\r' :: '\n' :: rest) = l ++ '\n' :: normCR rest := by
  intro l
  induction l with
  | nil => intro rest _; exact normCR_crlf rest
  | cons c l' ih =>
    intro rest h
    have hc : c ≠ '\r' := by intro hc; exact h (by simp [hc])
    have hl : '\r' ∉ l' := fun hm => h (List.mem_cons_of_mem _ hm)
    show normCR (c :: (l' ++ '\r' :: '\n' :: rest)) = _
    rw [normCR_cons_ne _ _ hc, ih rest hl]
    rfl

/-- Normalising the CRLF-joined document gives the LF-joined document. -/
theorem normCR_doc : ∀ ls : List Str, (∀ l ∈ ls, '\r' ∉ l) →
    normCR (joinCRLF ls ++ ['\r', '\n']) = joinLF ls ++ ['\n'] := by
  intro ls
  induction ls with
  | nil => intro _; rfl
  | cons l ls ih =>
    intro h
    have hl : '\r' ∉ l := h l (by simp)
    have hls : ∀ l' ∈ ls, '\r' ∉ l' := fun l' hm => h l' (by simp [hm])
    cases ls with
    | nil =>
      show normCR (l ++ ['\r', '\n']) = l ++ ['\n']
      have := normCR_line l [] hl
      simpa using this
    | cons l2 ls' =>
      show normCR ((l ++ '\r' :: '\n' :: joinCRLF (l2 :: ls')) ++ ['\r', '\n'])
        = (l ++ '\n' :: joinLF (l2 :: ls')) ++ ['\n']
      rw [List.append_assoc]
      simp only [List.cons_append]
      rw [normCR_line l (joinCRLF (l2 :: ls') ++ ['\r', '\n']) hl]
      have := ih hls
      simp only [List.cons_append] at this ⊢
      rw [this]
      simp

theorem unfoldICS_cons_ne (c : Char) (X : Str) (h : c ≠ '\n') :
    unfoldICS (c :: X) = c :: unfoldICS X := by
  cases X with
  | nil => rfl
  | cons x t => simp [unfoldICS, h]

theorem unfoldICS_nl (X : Str) (h1 : X.head? ≠ some ' ')
    (h2 : X.head? ≠ some '\t') : unfoldICS ('\n' :: X) = '\n' :: unfoldICS X := by
  cases X with
  | nil => rfl
  | cons x t =>
    have hx : ¬(x = ' ' ∨ x = '\t') := by
      rintro (hx | hx) <;> simp [hx] at h1 h2
    simp [unfoldICS, hx]

theorem joinLF_head_not_ws (l2 : Str) (ls' : List Str)
    (h2 : l2.head? ≠ some ' ' ∧ l2.head? ≠ some '\t') :
    (joinLF (l2 :: ls') ++ ['\n']).head? ≠ some ' ' ∧
      (joinLF (l2 :: ls') ++ ['\n']).head? ≠ some '\t' := by
  cases l2 with
  | nil =>
    cases ls' with
    | nil => simp [joinLF]
    | cons l3 ls'' => simp [joinLF]
  | cons x t =>
    cases ls' with
    | nil => simpa [joinLF] using h2
    | cons l3 ls'' => simpa [joinLF] using h2

theorem unfoldICS_line : ∀ (l : Str) (rest : Str), '\n' ∉ l →
    unfoldICS (l ++ rest) = l ++ unfoldICS rest := by
  intro l
  induction l with
  | nil => intro rest _; rfl
  | cons c l' ih =>
    intro rest h
    have hc : c ≠ '\n' := by intro hc; exact h (by simp [hc])
    have hl : '\n' ∉ l' := fun hm => h (List.mem_cons_of_mem _ hm)
    show unfoldICS (c :: (l' ++ rest)) = _
    rw [unfoldICS_cons_ne _ _ hc, ih rest hl]
    rfl

/-- With no line starting in a space or tab, unfolding leaves the LF-joined
document unchanged. -/
theorem unfoldICS_doc : ∀ ls : List Str, (∀ l ∈ ls, '\n' ∉ l) →
    (∀ l ∈ ls, l.head? ≠ some ' ' ∧ l.head? ≠ some '\t') →
    unfoldICS (joinLF ls ++ ['\n']) = joinLF ls ++ ['\n'] := by
  intro ls
  induction ls with
  | nil => intro _ _; rfl
  | cons l ls ih =>
    intro h hh
    have hl : '\n' ∉ l := h l (by simp)
    have hls : ∀ l' ∈ ls, '\n' ∉ l' := fun l' hm => h l' (by simp [hm])
    have hhls : ∀ l' ∈ ls, l'.head? ≠ some ' ' ∧ l'.head? ≠ some '\t' :=
      fun l' hm => hh l' (by simp [hm])
    cases ls with
    | nil =>
      show unfoldICS (l ++ ['\n']) = l ++ ['\n']
      rw [unfoldICS_line l ['\n'] hl]
      rfl
    | cons l2 ls' =>
      show unfoldICS ((l ++ '\n' :: joinLF (l2 :: ls')) ++ ['\n'])
        = (l ++ '\n' :: joinLF (l2 :: ls')) ++ ['\n']
      rw [List.append_assoc, unfoldICS_line l ('\n' :: joinLF (l2 :: ls') ++ ['\n']) hl]
      have hhead := joinLF_head_not_ws l2 ls' (hhls l2 (by simp))
      show l ++ unfoldICS ('\n' :: (joinLF (l2 :: ls') ++ ['\n'])) = _
      rw [unfoldICS_nl _ hhead.1 hhead.2]
      have := ih hls hhls
      simp only [List.cons_append] at this ⊢
      rw [this]

theorem splitLines_nl (rest : Str) :
    splitLines ('\n' :: rest) = [] :: splitLines rest := by
  simp [splitLines]

theorem splitLines_ne_nil : ∀ s : Str, splitLines s ≠ [] := by
  intro s
  induction s with
  | nil => simp [splitLines]
  | cons c t ih =>
    simp only [splitLines]
    by_cases h : c = '\n'
    · simp [h]
    · simp only [h, if_false]
      cases hs : splitLines t with
      | nil => simp
      | cons l ls => simp

theorem splitLines_line : ∀ (l : Str) (rest : Str), '\n' ∉ l →
    splitLines (l ++ '\n' :: rest) = l :: splitLines rest := by
  intro l
  induction l with
  | nil => intro rest _; exact splitLines_nl rest
  | cons c l' ih =>
    intro rest h
    have hc : c ≠ '\n' := by intro hc; exact h (by simp [hc])
    have hl : '\n' ∉ l' := fun hm => h (List.mem_cons_of_mem _ hm)
    show splitLines (c :: (l' ++ '\n' :: rest)) = _
    simp only [splitLines, hc, if_false]
    rw [ih rest hl]

/-- Splitting the LF-joined lines recovers them (with the empty final
segment after the trailing LF). -/
theorem splitLines_doc : ∀ ls : List Str, ls ≠ [] → (∀ l ∈ ls, '\n' ∉ l) →
    splitLines (joinLF ls ++ ['\n']) = ls ++ [[]] := by
  intro ls
  induction ls with
  | nil => intro h _; exact absurd rfl h
  | cons l ls ih =>
    intro _ h
    have hl : '\n' ∉ l := h l (by simp)
    have hls : ∀ l' ∈ ls, '\n' ∉ l' := fun l' hm => h l' (by simp [hm])
    cases ls with
    | nil =>
      show splitLines (l ++ ['\n']) = [l, []]
      have := splitLines_line l [] hl
      simpa using this
    | cons l2 ls' =>
      show splitLines ((l ++ '\n' :: joinLF (l2 :: ls')) ++ ['\n']) = _
      rw [List.append_assoc]
      rw [show ('\n' :: joinLF (l2 :: ls')) ++ ['\n']
            = '\n' :: (joinLF (l2 :: ls') ++ ['\n']) by simp]
      rw [splitLines_line l _ hl, ih (by simp) hls]
      rfl

/-! ### Line parsing on well-formed property lines -/

theorem takeWhile_elim {p : Char → Bool} : ∀ (a : Str) (b : Char) (s : Str),
    (∀ c ∈ a, p c = true) → p b = false →
    (a ++ b :: s).takeWhile p = a ∧ (a ++ b :: s).dropWhile p = b :: s := by
  intro a
  induction a with
  | nil =>
    intro b s _ hb
    constructor
    · simp [List.takeWhile_cons, hb]
    · simp [List.dropWhile_cons, hb]
  | cons c a' ih =>
    intro b s ha hb
    have hc : p c = true := ha c (by simp)
    have ha' : ∀ d ∈ a', p d = true := fun d hd => ha d (by simp [hd])
    obtain ⟨h1, h2⟩ := ih b s ha' hb
    constructor
    · show (c :: (a' ++ b :: s)).takeWhile p = c :: a'
      rw [List.takeWhile_cons, hc]
      simp [h1]
    · show (c :: (a' ++ b :: s)).dropWhile p = b :: s
      rw [List.dropWhile_cons, hc]
      simpa using h2

theorem parseLine_plain (k0 : Char) (kt v : Str) (h0 : isUpperAZ k0 = true)
    (hkt : ∀ c ∈ kt, isKeyChar c = true) :
    parseLine ((k0 :: kt) ++ ':' :: v) = some (k0 :: kt, [], v) := by
  show parseLine (k0 :: (kt ++ ':' :: v)) = _
  obtain ⟨ht, hd⟩ := takeWhile_elim kt ':' v hkt (by decide)
  simp only [parseLine, h0, if_true, ht, hd]

theorem parseLine_params (k0 : Char) (kt pr v : Str) (h0 : isUpperAZ k0 = true)
    (hkt : ∀ c ∈ kt, isKeyChar c = true) (hpr : pr ≠ [])
    (hprc : ∀ c ∈ pr, ¬(c = ':') ∧ ¬(c = '\n')) :
    parseLine ((k0 :: kt) ++ ';' :: (pr ++ ':' :: v))
      = some (k0 :: kt, pr, v) := by
  show parseLine (k0 :: (kt ++ ';' :: (pr ++ ':' :: v))) = _
  obtain ⟨ht, hd⟩ := takeWhile_elim kt ';' (pr ++ ':' :: v) hkt (by decide)
  obtain ⟨ht2, hd2⟩ := takeWhile_elim (p := fun d => d ≠ ':' ∧ d ≠ '\n') pr ':' v
    (fun c hc => by
      have := hprc c hc
      simp [this.1, this.2])
    (by decide)
  simp only [parseLine, h0, if_true, ht, hd, ht2, hd2, if_neg hpr]

/-! ### Object lookup computation -/

theorem objGet_foldl (k : Str) : ∀ (b : Obj) (init : Option Str),
    b.foldl (fun acc p => if p.1 = k then some p.2 else acc) init
      = match objGet b k with | some v => some v | none => init := by
  intro b
  induction b with
  | nil => intro init; rfl
  | cons p b' ih =>
    intro init
    show b'.foldl _ (if p.1 = k then some p.2 else init) = _
    rw [ih]
    have hob : objGet (p :: b') k
        = match objGet b' k with
          | some v => some v
          | none => if p.1 = k then some p.2 else none := by
      show b'.foldl _ (if p.1 = k then some p.2 else none) = _
      rw [ih]
    rw [hob]
    cases objGet b' k with
    | some w => rfl
    | none =>
      by_cases hpk : p.1 = k <;> simp [hpk]

theorem objGet_cons (p : Str × Str) (b : Obj) (k : Str) :
    objGet (p :: b) k
      = match objGet b k with
        | some v => some v
        | none => if p.1 = k then some p.2 else none := by
  show b.foldl _ (if p.1 = k then some p.2 else none) = _
  rw [objGet_foldl]

theorem objGet_append (a b : Obj) (k : Str) :
    objGet (a ++ b) k
      = match objGet b k with
        | some v => some v
        | none => objGet a k := by
  show (a ++ b).foldl _ none = _
  rw [List.foldl_append]
  rw [objGet_foldl]
  rfl

/-! ### Digit characters -/

theorem digitChar_props (n : Nat) :
    (digitChar (n % 10)).isDigit = true ∧
      lowChar (digitChar (n % 10)) = digitChar (n % 10) ∧
      digitChar (n % 10) ≠ '-' ∧ digitChar (n % 10) ≠ ':' ∧
      digitChar (n % 10) ≠ '\r' ∧ digitChar (n % 10) ≠ '\n' ∧
      digitChar (n % 10) ≠ '\\' ∧ digitChar (n % 10) ≠ ' ' ∧
      digitChar (n % 10) ≠ '\t' := by
  have h : n % 10 = 0 ∨ n % 10 = 1 ∨ n % 10 = 2 ∨ n % 10 = 3 ∨ n % 10 = 4 ∨
      n % 10 = 5 ∨ n % 10 = 6 ∨ n % 10 = 7 ∨ n % 10 = 8 ∨ n % 10 = 9 := by
    omega
  rcases h with h | h | h | h | h | h | h | h | h | h <;> rw [h] <;> decide

theorem pad2_props (n : Nat) : ∀ c ∈ pad2 n,
    c.isDigit = true ∧ lowChar c = c ∧ c ≠ '-' ∧ c ≠ ':' ∧ c ≠ '\r' ∧
      c ≠ '\n' ∧ c ≠ '\\' ∧ c ≠ ' ' ∧ c ≠ '\t' := by
  intro c hc
  simp only [pad2, List.mem_cons, List.mem_singleton] at hc
  rcases hc with rfl | rfl | h
  · exact digitChar_props _
  · exact digitChar_props _
  · simp at h

theorem pad4_props (n : Nat) : ∀ c ∈ pad4 n,
    c.isDigit = true ∧ lowChar c = c ∧ c ≠ '-' ∧ c ≠ ':' ∧ c ≠ '\r' ∧
      c ≠ '\n' ∧ c ≠ '\\' ∧ c ≠ ' ' ∧ c ≠ '\t' := by
  intro c hc
  simp only [pad4, List.mem_cons, List.mem_singleton] at hc
  rcases hc with rfl | rfl | rfl | rfl | h
  · exact digitChar_props _
  · exact digitChar_props _
  · exact digitChar_props _
  · exact digitChar_props _
  · simp at h

/-! ### Reflecting containment through the escape map -/

theorem prefix_cmap_esc : ∀ (t q : Str), '\\' ∉ q →
    q.isPrefixOf (cmap escChar t) = true → q.isPrefixOf t = true := by
  intro t
  induction t with
  | nil =>
    intro q hq h
    cases q with
    | nil => exact nil_isPrefixOf _
    | cons c q' => simp [cmap, List.isPrefixOf] at h
  | cons d t' ih =>
    intro q hq h
    cases q with
    | nil => exact nil_isPrefixOf _
    | cons c q' =>
      have hq' : '\\' ∉ q' := fun hm => hq (List.mem_cons_of_mem _ hm)
      have hcq : c ≠ '\\' := by intro hc; exact hq (by simp [hc])
      by_cases hd : d = '\\' ∨ d = ';' ∨ d = ',' ∨ d = '\n'
      · exfalso
        have hesc : ∃ x, escChar d = ['\\', x] := by
          rcases hd with hd | hd | hd | hd <;> rw [hd] <;> exact ⟨_, rfl⟩
        obtain ⟨x, hx⟩ := hesc
        rw [show cmap escChar (d :: t') = escChar d ++ cmap escChar t' from rfl,
          hx] at h
        simp only [List.cons_append, List.isPrefixOf, Bool.and_eq_true,
          beq_iff_eq] at h
        exact hcq h.1
      · have hesc : escChar d = [d] := by
          unfold escChar
          push_neg at hd
          simp [hd.1, hd.2.1, hd.2.2.1, hd.2.2.2]
        rw [show cmap escChar (d :: t') = escChar d ++ cmap escChar t' from rfl,
          hesc] at h
        simp only [List.singleton_append, List.isPrefixOf, Bool.and_eq_true,
          beq_iff_eq] at h
        show (c :: q').isPrefixOf (d :: t') = true
        simp only [List.isPrefixOf, Bool.and_eq_true, beq_iff_eq]
        exact ⟨h.1, ih q' hq' h.2⟩

/-- A pattern that contains no backslash and does not begin with `n`, `;`
or `,` occurs in the escaped text only if it occurs in the source text. -/
theorem containsB_cmap_esc : ∀ (s pat : Str), pat ≠ [] → '\\' ∉ pat →
    (∀ h0, pat.head? = some h0 → h0 ≠ 'n' ∧ h0 ≠ ';' ∧ h0 ≠ ',') →
    containsB pat (cmap escChar s) = true → containsB pat s = true := by
  intro s
  induction s with
  | nil =>
    intro pat hne hbs hhd h
    cases pat with
    | nil => exact absurd rfl hne
    | cons c q => simp [cmap, containsB, List.isPrefixOf] at h
  | cons c t ih =>
    intro pat hne hbs hhd h
    have hstep : containsB pat (escChar c ++ cmap escChar t) = true := h
    have hmono : containsB pat t = true → containsB pat (c :: t) = true := by
      intro hx
      show (pat.isPrefixOf (c :: t) || containsB pat t) = true
      simp [hx]
    have hofpfx : pat.isPrefixOf (c :: t) = true → containsB pat (c :: t) = true := by
      intro hx
      show (pat.isPrefixOf (c :: t) || containsB pat t) = true
      simp [hx]
    rcases containsB_append_cases hstep with hin | hin | ⟨i, hi, h1, h2⟩
    · -- inside the single token `escChar c`
      by_cases hc4 : c = '\\' ∨ c = ';' ∨ c = ',' ∨ c = '\n'
      · exfalso
        have hesc : ∃ x, escChar c = ['\\', x] ∧
            (x = '\\' ∨ x = 'n' ∨ x = ';' ∨ x = ',') := by
          rcases hc4 with hc | hc | hc | hc <;> rw [hc] <;> exact ⟨_, rfl, by simp⟩
        obtain ⟨x, hx, hxcases⟩ := hesc
        rw [hx] at hin
        have : pat.isPrefixOf ['\\', x] = true ∨ pat.isPrefixOf [x] = true ∨
            pat.isPrefixOf [] = true := by
          simpa [containsB, Bool.or_eq_true] using hin
        rcases this with hp | hp | hp
        · rcases isPrefixOf_cons_elim hp with rfl | ⟨pt, rfl, _⟩
          · exact hne rfl
          · exact hbs (by simp)
        · rcases isPrefixOf_cons_elim hp with rfl | ⟨pt, rfl, _⟩
          · exact hne rfl
          · have := hhd x (by rfl)
            rcases hxcases with rfl | rfl | rfl | rfl
            · exact hbs (by simp)
            · exact this.1 rfl
            · exact this.2.1 rfl
            · exact this.2.2 rfl
        · cases pat with
          | nil => exact hne rfl
          | cons a b => simp [List.isPrefixOf] at hp
      · have hesc : escChar c = [c] := by
          unfold escChar
          push_neg at hc4
          simp [hc4.1, hc4.2.1, hc4.2.2.1, hc4.2.2.2]
        rw [hesc] at hin
        have : pat.isPrefixOf [c] = true ∨ pat.isPrefixOf [] = true := by
          simpa [containsB, Bool.or_eq_true] using hin
        rcases this with hp | hp
        · rcases isPrefixOf_cons_elim hp with rfl | ⟨pt, rfl, hpt⟩
          · exact absurd rfl hne
          · have hptnil : pt = [] := by
              cases pt with
              | nil => rfl
              | cons a b => simp [List.isPrefixOf] at hpt
            subst hptnil
            apply hofpfx
            simp [List.isPrefixOf]
        · cases pat with
          | nil => exact absurd rfl hne
          | cons a b => simp [List.isPrefixOf] at hp
    · exact hmono (ih pat hne hbs hhd hin)
    · -- straddling the token boundary
      by_cases hc4 : c = '\\' ∨ c = ';' ∨ c = ',' ∨ c = '\n'
      · exfalso
        have hesc : ∃ x, escChar c = ['\\', x] ∧
            (x = '\\' ∨ x = 'n' ∨ x = ';' ∨ x = ',') := by
          rcases hc4 with hc | hc | hc | hc <;> rw [hc] <;> exact ⟨_, rfl, by simp⟩
        obtain ⟨x, hx, hxcases⟩ := hesc
        rw [hx] at h1 hi
        have hi2 : i = 0 ∨ i = 1 := by simp at hi; omega
        cases pat with
        | nil => exact hne rfl
        | cons a q =>
          rcases hi2 with rfl | rfl
          · have h1' : List.isPrefixOf ['\\', x] (a :: q) = true := h1
            simp only [List.isPrefixOf, Bool.and_eq_true, beq_iff_eq] at h1'
            exact hbs (by simp [h1'.1.symm])
          · have h1' : List.isPrefixOf [x] (a :: q) = true := h1
            simp only [List.isPrefixOf, Bool.and_eq_true, beq_iff_eq] at h1'
            have hax : a = x := h1'.1.symm
            have := hhd a rfl
            rcases hxcases with hxx | hxx | hxx | hxx <;> rw [hxx] at hax
            · exact hbs (by simp [hax])
            · exact this.1 hax
            · exact this.2.1 hax
            · exact this.2.2 hax
      · have hesc : escChar c = [c] := by
          unfold escChar
          push_neg at hc4
          simp [hc4.1, hc4.2.1, hc4.2.2.1, hc4.2.2.2]
        rw [hesc] at h1 h2 hi
        have hi0 : i = 0 := by simp at hi; omega
        subst hi0
        cases pat with
        | nil => exact absurd rfl hne
        | cons a q =>
          have h1' : List.isPrefixOf [c] (a :: q) = true := h1
          simp only [List.isPrefixOf, Bool.and_eq_true, beq_iff_eq] at h1'
          have hq : q.isPrefixOf (cmap escChar t) = true := by
            simpa using h2
          have hbs' : '\\' ∉ q := fun hm => hbs (List.mem_cons_of_mem _ hm)
          have hqt := prefix_cmap_esc t q hbs' hq
          apply hofpfx
          simp only [List.isPrefixOf, Bool.and_eq_true, beq_iff_eq]
          exact ⟨h1'.1.symm, hqt⟩

/-! ### Case folding versus escaping, and character classes -/

theorem lowChar_not_special {c : Char} (h1 : c ≠ '\\') (h2 : c ≠ ';')
    (h3 : c ≠ ',') (h4 : c ≠ '\n') :
    lowChar c ≠ '\\' ∧ lowChar c ≠ ';' ∧ lowChar c ≠ ',' ∧ lowChar c ≠ '\n' := by
  rcases lowChar_cases c with hc | hc
  · rw [hc]; exact ⟨h1, h2, h3, h4⟩
  · have hall : ∀ x ∈ upLow.map (fun p => p.2),
        x ≠ '\\' ∧ x ≠ ';' ∧ x ≠ ',' ∧ x ≠ '\n' := by decide
    exact hall _ hc

theorem low_escChar (c : Char) : low (escChar c) = escChar (lowChar c) := by
  by_cases h1 : c = '\\'
  · subst h1; decide
  · by_cases h2 : c = ';'
    · subst h2; decide
    · by_cases h3 : c = ','
      · subst h3; decide
      · by_cases h4 : c = '\n'
        · subst h4; decide
        · obtain ⟨g1, g2, g3, g4⟩ := lowChar_not_special h1 h2 h3 h4
          rw [show escChar c = [c] by unfold escChar; simp [h1, h2, h3, h4]]
          rw [show escChar (lowChar c) = [lowChar c] by
            unfold escChar; simp [g1, g2, g3, g4]]
          rfl

theorem low_cmap_esc : ∀ s : Str, low (cmap escChar s) = cmap escChar (low s) := by
  intro s
  induction s with
  | nil => rfl
  | cons c t ih =>
    show low (escChar c ++ cmap escChar t) = escChar (lowChar c) ++ cmap escChar (low t)
    rw [low_append, low_escChar, ih]

theorem lowChar_of_not_upper {c : Char} (h : ∀ p ∈ upLow, p.1 ≠ c) :
    lowChar c = c := by
  unfold lowChar
  have : upLow.find? (fun p => p.1 = c) = none := by
    rw [List.find?_eq_none]
    intro p hp
    simp [h p hp]
  rw [this]
  rfl

theorem isDigit_val {c : Char} (h : c.isDigit = true) :
    48 ≤ c.toNat ∧ c.toNat ≤ 57 := by
  simp only [Char.isDigit, Bool.and_eq_true, decide_eq_true_eq] at h
  exact ⟨h.1, h.2⟩

theorem ne_of_val_ne {c d : Char} (h : c.toNat ≠ d.toNat) : c ≠ d := by
  intro he
  exact h (by rw [he])

theorem isDigit_facts {c : Char} (h : c.isDigit = true) :
    lowChar c = c ∧ c ≠ ':' ∧ c ≠ '\r' ∧ c ≠ '\n' ∧ c ≠ '\\' ∧ c ≠ ' ' ∧
      c ≠ '\t' := by
  obtain ⟨hl, hr⟩ := isDigit_val h
  refine ⟨?_, ?_, ?_, ?_, ?_, ?_, ?_⟩
  · apply lowChar_of_not_upper
    intro p hp
    fin_cases hp <;> (intro he; rw [← he] at hr; revert hr; decide)
  · apply ne_of_val_ne; show c.toNat ≠ 58; omega
  · apply ne_of_val_ne; show c.toNat ≠ 13; omega
  · apply ne_of_val_ne; show c.toNat ≠ 10; omega
  · apply ne_of_val_ne; show c.toNat ≠ 92; omega
  · apply ne_of_val_ne; show c.toNat ≠ 32; omega
  · apply ne_of_val_ne; show c.toNat ≠ 9; omega

/-- Character facts about a DTSTAMP-like value (digits, `T`, `Z`). -/
theorem stampChar_facts {c : Char} (h : c.isDigit = true ∨ c = 'T' ∨ c = 'Z') :
    c ≠ ':' ∧ c ≠ '\r' ∧ c ≠ '\n' ∧ c ≠ '\\' ∧ lowChar c ≠ ':' := by
  rcases h with h | h | h
  · obtain ⟨hl, h1, h2, h3, h4, _, _⟩ := isDigit_facts h
    rw [hl] at *
    exact ⟨h1, h2, h3, h4, by rw [hl]; exact h1⟩
  · subst h; refine ⟨by decide, by decide, by decide, by decide, by decide⟩
  · subst h; refine ⟨by decide, by decide, by decide, by decide, by decide⟩

/-! ### `joinLF` structure -/

theorem joinLF_append : ∀ (a b : List Str), a ≠ [] → b ≠ [] →
    joinLF (a ++ b) = joinLF a ++ '\n' :: joinLF b := by
  intro a
  induction a with
  | nil => intro b h _; exact absurd rfl h
  | cons l a' ih =>
    intro b _ hb
    cases a' with
    | nil =>
      cases b with
      | nil => exact absurd rfl hb
      | cons b0 b' => rfl
    | cons l2 a'' =>
      show joinLF (l :: (l2 :: a'' ++ b)) = (l ++ '\n' :: joinLF (l2 :: a'')) ++ _
      rw [show joinLF (l :: (l2 :: a'' ++ b))
            = l ++ '\n' :: joinLF (l2 :: a'' ++ b) by
        cases a'' <;> cases b <;> rfl]
      rw [ih b (by simp) hb]
      simp

theorem low_joinLF : ∀ ls : List Str, low (joinLF ls) = joinLF (ls.map low) := by
  intro ls
  induction ls with
  | nil => rfl
  | cons l ls ih =>
    cases ls with
    | nil => rfl
    | cons l2 ls' =>
      show low (l ++ '\n' :: joinLF (l2 :: ls')) = low l ++ '\n' :: joinLF _
      rw [low_append]
      rw [show low ('\n' :: joinLF (l2 :: ls'))
            = '\n' :: low (joinLF (l2 :: ls')) from rfl]
      rw [ih]
      rfl

theorem containsB_cons_ne {pat : Str} {c : Char} {rest : Str} (hne : pat ≠ [])
    (hhd : ∀ h0, pat.head? = some h0 → h0 ≠ c) :
    containsB pat (c :: rest) = containsB pat rest := by
  show (pat.isPrefixOf (c :: rest) || containsB pat rest) = _
  cases pat with
  | nil => exact absurd rfl hne
  | cons a q =>
    have ha : a ≠ c := hhd a rfl
    simp [List.isPrefixOf, ha]

/-- A newline-free pattern is absent from an LF-joined document whose lines
and tail are all free of it. -/
theorem containsB_joinLF {pat : Str} (hne : pat ≠ []) (hnl : '\n' ∉ pat) :
    ∀ (ls : List Str) (X : Str), (∀ l ∈ ls, containsB pat l = false) →
      containsB pat X = false →
      containsB pat (joinLF ls ++ '\n' :: X) = false := by
  have hhd : ∀ h0, pat.head? = some h0 → h0 ≠ '\n' := by
    intro h0 hh0 he
    apply hnl
    cases pat with
    | nil => simp at hh0
    | cons a q =>
      simp at hh0
      rw [hh0, he]
      simp
  intro ls
  induction ls with
  | nil =>
    intro X _ hX
    show containsB pat ('\n' :: X) = false
    rw [containsB_cons_ne hne hhd, hX]
  | cons l ls ih =>
    intro X h hX
    have hl : containsB pat l = false := h l (by simp)
    have hls : ∀ l' ∈ ls, containsB pat l' = false := fun l' hm => h l' (by simp [hm])
    cases ls with
    | nil =>
      show containsB pat (l ++ '\n' :: X) = false
      by_contra hc
      simp only [Bool.not_eq_false] at hc
      rcases containsB_nl_split hnl hc with hc | hc
      · rw [hc] at hl; cases hl
      · rw [hc] at hX; cases hX
    | cons l2 ls' =>
      show containsB pat ((l ++ '\n' :: joinLF (l2 :: ls')) ++ '\n' :: X) = false
      rw [List.append_assoc]
      simp only [List.cons_append]
      by_contra hc
      simp only [Bool.not_eq_false] at hc
      rcases containsB_nl_split hnl hc with hc | hc
      · rw [hc] at hl; cases hl
      · have := ih X hls hX
        rw [hc] at this; cases this

/-! ### Dates: formatting and parsing -/

theorem digitChar_toNat (n : Nat) : (digitChar (n % 10)).toNat = 48 + n % 10 := by
  have h : n % 10 = 0 ∨ n % 10 = 1 ∨ n % 10 = 2 ∨ n % 10 = 3 ∨ n % 10 = 4 ∨
      n % 10 = 5 ∨ n % 10 = 6 ∨ n % 10 = 7 ∨ n % 10 = 8 ∨ n % 10 = 9 := by
    omega
  rcases h with h | h | h | h | h | h | h | h | h | h <;> rw [h] <;> decide

theorem parseYMD_fmt (y m d : Nat) (hy : y ≤ 9999) (hm : m ≤ 99) (hd : d ≤ 99) :
    parseYMD (fmtYMD y m d) = some (y, m, d) := by
  show parseYMD [digitChar (y / 1000 % 10), digitChar (y / 100 % 10),
    digitChar (y / 10 % 10), digitChar (y % 10), '-', digitChar (m / 10 % 10),
    digitChar (m % 10), '-', digitChar (d / 10 % 10), digitChar (d % 10)] = _
  dsimp only [parseYMD]
  have hall : [digitChar (y / 1000 % 10), digitChar (y / 100 % 10),
      digitChar (y / 10 % 10), digitChar (y % 10), digitChar (m / 10 % 10),
      digitChar (m % 10), digitChar (d / 10 % 10),
      digitChar (d % 10)].all Char.isDigit = true := by
    simp only [List.all_cons, List.all_nil, Bool.and_eq_true]
    refine ⟨(digitChar_props _).1, (digitChar_props _).1, (digitChar_props _).1,
      (digitChar_props _).1, (digitChar_props _).1, (digitChar_props _).1,
      (digitChar_props _).1, (digitChar_props _).1, trivial⟩
  rw [if_pos ⟨rfl, rfl, hall⟩]
  have t1 := digitChar_toNat (y / 1000)
  have t2 := digitChar_toNat (y / 100)
  have t3 := digitChar_toNat (y / 10)
  have t4 := digitChar_toNat y
  have t5 := digitChar_toNat (m / 10)
  have t6 := digitChar_toNat m
  have t7 := digitChar_toNat (d / 10)
  have t8 := digitChar_toNat d
  congr 1
  rw [t1, t2, t3, t4, t5, t6, t7, t8]
  simp only [Prod.mk.injEq]
  refine ⟨by omega, by omega, by omega⟩

theorem stripDashes_filter_eq {l : Str} (h : ∀ c ∈ l, c ≠ '-') :
    stripDashes l = l := by
  unfold stripDashes
  rw [List.filter_eq_self]
  intro a ha
  simp [h a ha]

theorem stripDashes_fmt (y m d : Nat) :
    stripDashes (fmtYMD y m d) = pad4 y ++ pad2 m ++ pad2 d := by
  have h4 : (pad4 y).filter (fun c => c ≠ '-') = pad4 y :=
    stripDashes_filter_eq (fun c hc => (pad4_props y c hc).2.2.1)
  have hm' : ('-' :: pad2 m).filter (fun c => c ≠ '-') = pad2 m := by
    rw [show ('-' :: pad2 m).filter (fun c => c ≠ '-')
          = (pad2 m).filter (fun c => c ≠ '-') by simp]
    exact stripDashes_filter_eq (fun c hc => (pad2_props m c hc).2.2.1)
  have hd' : ('-' :: pad2 d).filter (fun c => c ≠ '-') = pad2 d := by
    rw [show ('-' :: pad2 d).filter (fun c => c ≠ '-')
          = (pad2 d).filter (fun c => c ≠ '-') by simp]
    exact stripDashes_filter_eq (fun c hc => (pad2_props d c hc).2.2.1)
  show (pad4 y ++ '-' :: pad2 m ++ '-' :: pad2 d).filter (fun c => c ≠ '-') = _
  rw [List.filter_append, List.filter_append, h4, hm', hd']

/-! ### Parsing a generated document -/

/-- The end-marker pattern, case-folded. -/
theorem endMark_low_facts :
    (str "end:vevent") ≠ [] ∧ '\n' ∉ (str "end:vevent") ∧
      (∀ h0, (str "end:vevent").head? = some h0 → h0 ≠ '\n') := by
  refine ⟨by decide, by decide, ?_⟩
  intro h0 hh0
  rw [show (str "end:vevent").head? = some 'e' from rfl] at hh0
  simp at hh0
  rw [← hh0]
  decide

/-- A case-insensitive prefix is no longer than the string. -/
theorem isPrefixCI_length_le : ∀ (pat s : Str),
    isPrefixCI pat s = true → pat.length ≤ s.length := by
  intro pat
  induction pat with
  | nil => intro s _; simp
  | cons a as ih =>
    intro s h
    cases s with
    | nil => simp [isPrefixCI] at h
    | cons b bs =>
      simp only [isPrefixCI, Bool.and_eq_true] at h
      have := ih bs h.2
      simp
      omega

/-- A successful split consumes at least the pattern. -/
theorem splitFirstCI_length : ∀ (pat s a b : Str),
    splitFirstCI pat s = some (a, b) → b.length + pat.length ≤ s.length := by
  intro pat s
  induction s with
  | nil =>
    intro a b h
    unfold splitFirstCI at h
    by_cases hp : isPrefixCI pat []
    · simp [hp] at h
      have := isPrefixCI_length_le pat [] hp
      simp at this
      simp [← h.2, this]
    · simp [hp] at h
  | cons c t ih =>
    intro a b h
    unfold splitFirstCI at h
    by_cases hp : isPrefixCI pat (c :: t)
    · simp [hp] at h
      have hl1 := isPrefixCI_length_le pat (c :: t) hp
      rw [← h.2]
      have hl2 := List.length_drop pat.length (c :: t)
      simp at hl1 hl2 ⊢
      omega
    · simp [hp] at h
      obtain ⟨p, hq1, hq2⟩ := h
      have := ih p b hq1
      simp at this ⊢
      omega

/-- Fuel stability: any fuel above the text length gives the same scan. -/
theorem extractBlocksF_congr : ∀ (fuel fuel' : Nat) (s : Str),
    s.length < fuel → s.length < fuel' →
    extractBlocksF fuel s = extractBlocksF fuel' s := by
  intro fuel
  induction fuel with
  | zero => intro fuel' s h _; exact absurd h (Nat.not_lt_zero _)
  | succ f ih =>
    intro fuel' s h h'
    cases fuel' with
    | zero => exact absurd h' (Nat.not_lt_zero _)
    | succ f' =>
      simp only [extractBlocksF]
      cases hsp : splitFirstCI beginMark s with
      | none => rfl
      | some pr =>
        obtain ⟨pre, rest⟩ := pr
        dsimp only
        cases hsp2 : splitFirstCI endMark rest with
        | none => rfl
        | some pr2 =>
          obtain ⟨blk, rest2⟩ := pr2
          dsimp only
          have l1 := splitFirstCI_length beginMark s pre rest hsp
          have l2 := splitFirstCI_length endMark rest blk rest2 hsp2
          have hbm : beginMark.length = 12 := by decide
          have hem : endMark.length = 10 := by decide
          rw [ih f' rest2 (by omega) (by omega)]

/-- Unfolding equation for `extractBlocks` when no BEGIN marker remains. -/
theorem extractBlocks_nil {s : Str}
    (h : splitFirstCI beginMark s = none) : extractBlocks s = [] := by
  show extractBlocksF (s.length + 1) s = []
  simp only [extractBlocksF, h]

/-- Unfolding equation for `extractBlocks` when both markers are found. -/
theorem extractBlocks_cons {s pre rest blk rest2 : Str}
    (h1 : splitFirstCI beginMark s = some (pre, rest))
    (h2 : splitFirstCI endMark rest = some (blk, rest2)) :
    extractBlocks s = blk :: extractBlocks rest2 := by
  have l1 := splitFirstCI_length beginMark s pre rest h1
  have l2 := splitFirstCI_length endMark rest blk rest2 h2
  have hbm : beginMark.length = 12 := by decide
  have hem : endMark.length = 10 := by decide
  show extractBlocksF (s.length + 1) s
      = blk :: extractBlocksF (rest2.length + 1) rest2
  calc extractBlocksF (s.length + 1) s
      = blk :: extractBlocksF s.length rest2 := by
        show (match splitFirstCI beginMark s with
          | none => []
          | some (_, rest) =>
            match splitFirstCI endMark rest with
            | none => []
            | some (blk, rest2) => blk :: extractBlocksF s.length rest2) = _
        rw [h1]
        dsimp only
        rw [h2]
    _ = blk :: extractBlocksF (rest2.length + 1) rest2 := by
        rw [extractBlocksF_congr s.length (rest2.length + 1) rest2
          (by omega) (by omega)]

/-- `parseICS` on a well-formed generated document: the single VEVENT block
yields the fold of the inner lines, filtered on a truthy UID. -/
theorem parseICS_generated (inner : List Str)
    (hcr : ∀ l ∈ inner, '\r' ∉ l) (hnl : ∀ l ∈ inner, '\n' ∉ l)
    (hws : ∀ l ∈ inner, l.head? ≠ some ' ' ∧ l.head? ≠ some '\t')
    (hne : inner ≠ [])
    (hev : ∀ l ∈ inner, containsB (str "end:vevent") (low l) = false) :
    parseICS (joinCRLF ([str "BEGIN:VCALENDAR", str "VERSION:2.0",
        str "PRODID:-//Vonk & Vorm Project Manager//NL",
        str "CALSCALE:GREGORIAN"] ++ beginMark :: inner
        ++ [endMark, str "END:VCALENDAR"]) ++ ['\r', '\n'])
      = [inner.foldl procLine []].filter
          (fun ev => truthy (objGet ev (str "UID"))) := by
  set preL : List Str := [str "BEGIN:VCALENDAR", str "VERSION:2.0",
    str "PRODID:-//Vonk & Vorm Project Manager//NL",
    str "CALSCALE:GREGORIAN"] with hpreL
  set allL : List Str := preL ++ beginMark :: inner
    ++ [endMark, str "END:VCALENDAR"] with hallL
  have hallcr : ∀ l ∈ allL, '\r' ∉ l := by
    intro l hl
    by_cases hmem : l ∈ inner
    · exact hcr l hmem
    · have hcases : l = str "BEGIN:VCALENDAR" ∨ l = str "VERSION:2.0" ∨
          l = str "PRODID:-//Vonk & Vorm Project Manager//NL" ∨
          l = str "CALSCALE:GREGORIAN" ∨ l = beginMark ∨ l = endMark ∨
          l = str "END:VCALENDAR" := by
        rw [hallL, hpreL] at hl
        simp only [List.mem_append, List.mem_cons, List.mem_singleton,
          List.not_mem_nil, or_false] at hl
        tauto
      rcases hcases with rfl | rfl | rfl | rfl | rfl | rfl | rfl <;> decide
  have hallnl : ∀ l ∈ allL, '\n' ∉ l := by
    intro l hl
    by_cases hmem : l ∈ inner
    · exact hnl l hmem
    · have hcases : l = str "BEGIN:VCALENDAR" ∨ l = str "VERSION:2.0" ∨
          l = str "PRODID:-//Vonk & Vorm Project Manager//NL" ∨
          l = str "CALSCALE:GREGORIAN" ∨ l = beginMark ∨ l = endMark ∨
          l = str "END:VCALENDAR" := by
        rw [hallL, hpreL] at hl
        simp only [List.mem_append, List.mem_cons, List.mem_singleton,
          List.not_mem_nil, or_false] at hl
        tauto
      rcases hcases with rfl | rfl | rfl | rfl | rfl | rfl | rfl <;> decide
  have hallws : ∀ l ∈ allL, l.head? ≠ some ' ' ∧ l.head? ≠ some '\t' := by
    intro l hl
    by_cases hmem : l ∈ inner
    · exact hws l hmem
    · have hcases : l = str "BEGIN:VCALENDAR" ∨ l = str "VERSION:2.0" ∨
          l = str "PRODID:-//Vonk & Vorm Project Manager//NL" ∨
          l = str "CALSCALE:GREGORIAN" ∨ l = beginMark ∨ l = endMark ∨
          l = str "END:VCALENDAR" := by
        rw [hallL, hpreL] at hl
        simp only [List.mem_append, List.mem_cons, List.mem_singleton,
          List.not_mem_nil, or_false] at hl
        tauto
      rcases hcases with rfl | rfl | rfl | rfl | rfl | rfl | rfl <;> decide
  unfold parseICS
  rw [normCR_doc allL hallcr, unfoldICS_doc allL hallnl hallws]
  -- decompose the normalised document around the two markers
  have hsplit : joinLF allL ++ ['\n']
      = ((joinLF preL ++ ['\n']) ++ beginMark)
        ++ (('\n' :: (joinLF inner ++ ['\n'])) ++ endMark
            ++ ('\n' :: (str "END:VCALENDAR" ++ ['\n']))) := by
    rw [hallL]
    rw [show preL ++ beginMark :: inner ++ [endMark, str "END:VCALENDAR"]
          = preL ++ ([beginMark] ++ (inner ++ [endMark, str "END:VCALENDAR"])) by simp]
    rw [joinLF_append preL ([beginMark] ++ (inner ++ [endMark, str "END:VCALENDAR"]))
      (by rw [hpreL]; simp) (by simp)]
    rw [joinLF_append [beginMark] (inner ++ [endMark, str "END:VCALENDAR"])
      (by simp) (by simp)]
    rw [joinLF_append inner [endMark, str "END:VCALENDAR"] hne (by simp)]
    rw [show joinLF [beginMark] = beginMark from rfl]
    rw [show joinLF [endMark, str "END:VCALENDAR"]
          = endMark ++ '\n' :: str "END:VCALENDAR" from rfl]
    simp [List.append_assoc]
  rw [hsplit]
  -- the scan finds the BEGIN marker right after the prelude
  have hs1 : splitFirstCI beginMark
      (((joinLF preL ++ ['\n']) ++ beginMark)
        ++ (('\n' :: (joinLF inner ++ ['\n'])) ++ endMark
            ++ ('\n' :: (str "END:VCALENDAR" ++ ['\n']))))
      = some (joinLF preL ++ ['\n'],
          ('\n' :: (joinLF inner ++ ['\n'])) ++ endMark
            ++ ('\n' :: (str "END:VCALENDAR" ++ ['\n']))) := by
    exact splitFirstCI_exact (joinLF preL ++ ['\n']) (by decide) (by decide)
  -- then the END marker right after the inner lines
  have hIn : containsB (str "end:vevent")
      (low (('\n' :: (joinLF inner ++ ['\n'])) ++ endMark.dropLast)) = false := by
    obtain ⟨hp1, hp2, hp3⟩ := endMark_low_facts
    rw [show ('\n' :: (joinLF inner ++ ['\n'])) ++ endMark.dropLast
          = '\n' :: (joinLF inner ++ '\n' :: endMark.dropLast) by simp]
    rw [show low ('\n' :: (joinLF inner ++ '\n' :: endMark.dropLast))
          = '\n' :: (low (joinLF inner) ++ '\n' :: low endMark.dropLast) by
      simp [low]
      decide]
    rw [containsB_cons_ne hp1 hp3]
    rw [low_joinLF]
    apply containsB_joinLF hp1 hp2
    · intro l' hl'
      obtain ⟨l, hl, rfl⟩ := List.mem_map.1 hl'
      exact hev l hl
    · decide
  have hs2 : splitFirstCI endMark
      (('\n' :: (joinLF inner ++ ['\n'])) ++ endMark
        ++ ('\n' :: (str "END:VCALENDAR" ++ ['\n'])))
      = some ('\n' :: (joinLF inner ++ ['\n']),
          '\n' :: (str "END:VCALENDAR" ++ ['\n'])) := by
    exact splitFirstCI_exact ('\n' :: (joinLF inner ++ ['\n'])) (by decide) hIn
  have hs3 : splitFirstCI beginMark ('\n' :: (str "END:VCALENDAR" ++ ['\n'])) = none := by
    apply splitFirstCI_eq_none
    decide
  rw [extractBlocks_cons hs1 hs2, extractBlocks_nil hs3]
  -- the block's lines
  have hlines : splitLines ('\n' :: (joinLF inner ++ ['\n']))
      = [] :: (inner ++ [[]]) := by
    rw [splitLines_nl, splitLines_doc inner hne hnl]
  show ([parseEventBlock ('\n' :: (joinLF inner ++ ['\n']))].filter _) = _
  have hblk : parseEventBlock ('\n' :: (joinLF inner ++ ['\n']))
      = inner.foldl procLine [] := by
    unfold parseEventBlock
    rw [hlines]
    rw [show (([] : Str) :: (inner ++ [[]])).foldl procLine []
          = (inner ++ [[]]).foldl procLine (procLine [] []) from rfl]
    rw [show procLine ([] : Obj) ([] : Str) = [] from rfl]
    rw [List.foldl_append]
    rw [show ([([] : Str)]).foldl procLine (inner.foldl procLine [])
          = procLine (inner.foldl procLine []) [] from rfl]
    rw [show ∀ ev : Obj, procLine ev ([] : Str) = ev from fun ev => rfl]
  rw [hblk]

/-! ### Facts about the digit-valued lines -/

/-- The eight digit characters of a `YYYYMMDD` value: digits, fixed under
case folding, and free of every delimiter the parser is sensitive to. -/
theorem padsFacts (a b c : Nat) :
    '\r' ∉ pad4 a ++ pad2 b ++ pad2 c ∧
      '\n' ∉ pad4 a ++ pad2 b ++ pad2 c ∧
      '\\' ∉ pad4 a ++ pad2 b ++ pad2 c ∧
      containsB (str "end:vevent") (low (pad4 a ++ pad2 b ++ pad2 c))
        = false := by
  have hch : ∀ ch ∈ pad4 a ++ pad2 b ++ pad2 c,
      ch.isDigit = true ∧ lowChar ch = ch ∧ ch ≠ '-' ∧ ch ≠ ':' ∧
        ch ≠ '\r' ∧ ch ≠ '\n' ∧ ch ≠ '\\' ∧ ch ≠ ' ' ∧ ch ≠ '\t' := by
    intro ch hc
    rcases List.mem_append.1 hc with hc | hc
    · rcases List.mem_append.1 hc with hc | hc
      · exact pad4_props a ch hc
      · exact pad2_props b ch hc
    · exact pad2_props c ch hc
  refine ⟨fun h => ((hch _ h).2.2.2.2.1) rfl,
    fun h => ((hch _ h).2.2.2.2.2.1) rfl,
    fun h => ((hch _ h).2.2.2.2.2.2.1) rfl, ?_⟩
  apply not_containsB_of_char (show ':' ∈ str "end:vevent" by decide)
  intro h
  simp only [low] at h
  obtain ⟨ch, hc, hlc⟩ := List.mem_map.1 h
  have hf := hch ch hc
  rw [hf.2.1] at hlc
  exact hf.2.2.2.1 hlc

/-- `parseDTSTART` on an 8-digit all-day value restores the dashed date. -/
theorem parseDTSTART_pads (y m d : Nat) :
    parseDTSTART (pad4 y ++ pad2 m ++ pad2 d) = some (fmtYMD y m d) := by
  have hlen : (pad4 y ++ pad2 m ++ pad2 d).length = 8 := by
    simp [pad4, pad2]
  have hdig : (pad4 y ++ pad2 m ++ pad2 d).all Char.isDigit = true := by
    rw [List.all_eq_true]
    intro ch hc
    rcases List.mem_append.1 hc with hc | hc
    · rcases List.mem_append.1 hc with hc | hc
      · exact (pad4_props y ch hc).1
      · exact (pad2_props m ch hc).1
    · exact (pad2_props d ch hc).1
  unfold parseDTSTART
  rw [if_neg (by simp [pad4, pad2]), if_pos ⟨hlen, hdig⟩]
  rfl

/-- The escape map introduces no case-folded `END:VEVENT` occurrence. -/
theorem escICS_no_endmark {v : Str}
    (h : containsB (str "end:vevent") (low v) = false) :
    containsB (str "end:vevent") (low (escICS v)) = false := by
  rw [escICS_eq_cmap, low_cmap_esc]
  by_contra hcb
  simp only [Bool.not_eq_false] at hcb
  have hh := containsB_cmap_esc (low v) (str "end:vevent") (by decide) (by decide)
    (by
      intro h0 hh0
      rw [show (str "end:vevent").head? = some 'e' from rfl] at hh0
      simp at hh0
      rw [← hh0]
      decide) hcb
  rw [hh] at h
  cases h

/-- The head of a generated content line is its (concrete) first key
character. -/
theorem headPair (c : Char) (t v : Str) (h1 : c ≠ ' ') (h2 : c ≠ '\t') :
    ((c :: t) ++ v).head? ≠ some ' ' ∧ ((c :: t) ++ v).head? ≠ some '\t' := by
  rw [show ((c :: t) ++ v).head? = some c from rfl]
  constructor
  · intro h; exact h1 (Option.some.inj h)
  · intro h; exact h2 (Option.some.inj h)

/-- C1, amended: on event records whose fields respect the value grammar of
the format — a nonempty uid free of backslash, CR, LF, and case-insensitive
`END:VEVENT`; a title with no backslash-`n` character pair, no CR, and no
case-insensitive `END:VEVENT`; a description with no CR and no
case-insensitive `END:VEVENT`; a timestamp over digits/`T`/`Z`; and a valid
`YYYY-MM-DD` date — `parseICS` of the `generateICS` output yields exactly
one parsed event whose `UID` is the input uid, whose `SUMMARY` is the input
title, whose `STATUS` is `CANCELLED` exactly for input status `done` and
`CONFIRMED` otherwise, and whose `DTSTART` value parses back (via
`parseDTSTART`) to the input date.  The unrestricted claim is false: see
the counterexample, where a title containing the two characters
backslash-`n` comes back as backslash-LF. -/
theorem caldav_codec_roundtrip (stamp today : Str) (e : EventRec)
    (y m d : Nat)
    (hstamp : ∀ c ∈ stamp, c.isDigit = true ∨ c = 'T' ∨ c = 'Z')
    (huid0 : e.uid ≠ [])
    (huid1 : '\\' ∉ e.uid) (huid2 : '\r' ∉ e.uid) (huid3 : '\n' ∉ e.uid)
    (huid4 : containsB (str "end:vevent") (low e.uid) = false)
    (ht1 : noBsN e.title = true) (ht2 : '\r' ∉ e.title)
    (ht3 : containsB (str "end:vevent") (low e.title) = false)
    (hds1 : '\r' ∉ e.descrip)
    (hds2 : containsB (str "end:vevent") (low e.descrip) = false)
    (hdate : e.date = fmtYMD y m d) (hval : validYMD y m d) :
    ∃ ev : Obj, parseICS (generateICS stamp today e) = [ev]
      ∧ objGet ev (str "UID") = some e.uid
      ∧ objGet ev (str "SUMMARY") = some e.title
      ∧ objGet ev (str "STATUS")
          = some (if e.status = str "done" then str "CANCELLED"
                  else str "CONFIRMED")
      ∧ ∃ dv, objGet ev (str "DTSTART") = some dv
          ∧ parseDTSTART dv = some e.date := by
  obtain ⟨hm1, hm2, hdd1, hdd2, hy⟩ := hval
  have hm99 : m ≤ 99 := by omega
  have hdim : daysInMonth y m ≤ 31 := by
    unfold daysInMonth
    split_ifs <;> omega
  have hd99 : d ≤ 99 := by omega
  have hdateNe : e.date ≠ [] := by rw [hdate]; simp [fmtYMD, pad4]
  have hstart : stripDashes (if e.date = [] then today else e.date)
      = pad4 y ++ pad2 m ++ pad2 d := by
    rw [if_neg hdateNe, hdate, stripDashes_fmt]
  rcases hnd : nextDay y m d with ⟨y2, m2, d2⟩
  have hend : stripDashes (incDate (if e.date = [] then today else e.date))
      = pad4 y2 ++ pad2 m2 ++ pad2 d2 := by
    rw [if_neg hdateNe, hdate]
    unfold incDate
    rw [parseYMD_fmt y m d hy hm99 hd99]
    dsimp only
    rw [hnd]
    exact stripDashes_fmt y2 m2 d2
  have hstcr : '\r' ∉ stamp := fun h => ((stampChar_facts (hstamp _ h)).2.1) rfl
  have hstnl : '\n' ∉ stamp :=
    fun h => ((stampChar_facts (hstamp _ h)).2.2.1) rfl
  have hstbs : '\\' ∉ stamp :=
    fun h => ((stampChar_facts (hstamp _ h)).2.2.2.1) rfl
  have hstev : containsB (str "end:vevent") (low stamp) = false := by
    apply not_containsB_of_char (show ':' ∈ str "end:vevent" by decide)
    intro h
    simp only [low] at h
    obtain ⟨ch, hc, hlc⟩ := List.mem_map.1 h
    exact ((stampChar_facts (hstamp ch hc)).2.2.2.2) hlc
  obtain ⟨hpcr, hpnl, hpbs, hpev⟩ := padsFacts y m d
  obtain ⟨hqcr, hqnl, hqbs, hqev⟩ := padsFacts y2 m2 d2
  have hsumcr : '\r' ∉ escICS e.title := fun h => ht2 (escICS_cr h)
  have hsumnl : '\n' ∉ escICS e.title := escICS_no_nl e.title
  have hsumev := escICS_no_endmark ht3
  have hdscr : '\r' ∉ escICS e.descrip := fun h => hds1 (escICS_cr h)
  have hdsnl : '\n' ∉ escICS e.descrip := escICS_no_nl e.descrip
  have hdsev := escICS_no_endmark hds2
  set statV := (if e.status = str "done" then str "CANCELLED"
                else str "CONFIRMED") with hstatV
  have hstatC : statV = str "CANCELLED" ∨ statV = str "CONFIRMED" := by
    rw [hstatV]
    by_cases h : e.status = str "done"
    · rw [if_pos h]; exact Or.inl rfl
    · rw [if_neg h]; exact Or.inr rfl
  have hstatcr : '\r' ∉ statV := by
    rcases hstatC with h | h <;> rw [h] <;> decide
  have hstatnl : '\n' ∉ statV := by
    rcases hstatC with h | h <;> rw [h] <;> decide
  have hstatbs : '\\' ∉ statV := by
    rcases hstatC with h | h <;> rw [h] <;> decide
  have hstatev : containsB (str "end:vevent") (low statV) = false := by
    rcases hstatC with h | h <;> rw [h] <;> decide
  have p1 : parseLine (str "UID:" ++ e.uid) = some (str "UID", [], e.uid) :=
    parseLine_plain 'U' (str "ID") e.uid (by decide) (by decide)
  have p2 : parseLine (str "DTSTAMP:" ++ stamp)
      = some (str "DTSTAMP", [], stamp) :=
    parseLine_plain 'D' (str "TSTAMP") stamp (by decide) (by decide)
  have p3 : parseLine (str "DTSTART;VALUE=DATE:"
        ++ (pad4 y ++ pad2 m ++ pad2 d))
      = some (str "DTSTART", str "VALUE=DATE", pad4 y ++ pad2 m ++ pad2 d) :=
    parseLine_params 'D' (str "TSTART") (str "VALUE=DATE") _
      (by decide) (by decide) (by decide) (by decide)
  have p4 : parseLine (str "DTEND;VALUE=DATE:"
        ++ (pad4 y2 ++ pad2 m2 ++ pad2 d2))
      = some (str "DTEND", str "VALUE=DATE", pad4 y2 ++ pad2 m2 ++ pad2 d2) :=
    parseLine_params 'D' (str "TEND") (str "VALUE=DATE") _
      (by decide) (by decide) (by decide) (by decide)
  have p5 : parseLine (str "SUMMARY:" ++ escICS e.title)
      = some (str "SUMMARY", [], escICS e.title) :=
    parseLine_plain 'S' (str "UMMARY") _ (by decide) (by decide)
  have p6 : parseLine (str "STATUS:" ++ statV)
      = some (str "STATUS", [], statV) :=
    parseLine_plain 'S' (str "TATUS") _ (by decide) (by decide)
  have p7 : parseLine (str "LAST-MODIFIED:" ++ stamp)
      = some (str "LAST-MODIFIED", [], stamp) :=
    parseLine_plain 'L' (str "AST-MODIFIED") _ (by decide) (by decide)
  have p8 : parseLine (str "DESCRIPTION:" ++ escICS e.descrip)
      = some (str "DESCRIPTION", [], escICS e.descrip) :=
    parseLine_plain 'D' (str "ESCRIPTION") _ (by decide) (by decide)
  have huidCons : ∃ c t, e.uid = c :: t := by
    cases hu : e.uid with
    | nil => exact absurd hu huid0
    | cons c t => exact ⟨c, t, rfl⟩
  by_cases hdesc : e.descrip = []
  case pos =>
    set inn : List Str := [str "UID:" ++ e.uid, str "DTSTAMP:" ++ stamp,
      str "DTSTART;VALUE=DATE:" ++ (pad4 y ++ pad2 m ++ pad2 d),
      str "DTEND;VALUE=DATE:" ++ (pad4 y2 ++ pad2 m2 ++ pad2 d2),
      str "SUMMARY:" ++ escICS e.title,
      str "STATUS:" ++ statV,
      str "LAST-MODIFIED:" ++ stamp] with hinn
    have hgen : genLines stamp today e
        = [str "BEGIN:VCALENDAR", str "VERSION:2.0",
           str "PRODID:-//Vonk & Vorm Project Manager//NL",
           str "CALSCALE:GREGORIAN"] ++ beginMark :: inn
          ++ [endMark, str "END:VCALENDAR"] := by
      unfold genLines
      rw [hstart, hend, if_pos hdesc, ← hstatV, hinn]
      rfl
    have hcr : ∀ l ∈ inn, '\r' ∉ l := by
      intro l hl
      rw [hinn] at hl
      simp only [List.mem_cons, List.not_mem_nil, or_false] at hl
      rcases hl with rfl | rfl | rfl | rfl | rfl | rfl | rfl <;>
        (intro h; rcases List.mem_append.1 h with h | h)
      · revert h; decide
      · exact huid2 h
      · revert h; decide
      · exact hstcr h
      · revert h; decide
      · exact hpcr h
      · revert h; decide
      · exact hqcr h
      · revert h; decide
      · exact hsumcr h
      · revert h; decide
      · exact hstatcr h
      · revert h; decide
      · exact hstcr h
    have hnl : ∀ l ∈ inn, '\n' ∉ l := by
      intro l hl
      rw [hinn] at hl
      simp only [List.mem_cons, List.not_mem_nil, or_false] at hl
      rcases hl with rfl | rfl | rfl | rfl | rfl | rfl | rfl <;>
        (intro h; rcases List.mem_append.1 h with h | h)
      · revert h; decide
      · exact huid3 h
      · revert h; decide
      · exact hstnl h
      · revert h; decide
      · exact hpnl h
      · revert h; decide
      · exact hqnl h
      · revert h; decide
      · exact hsumnl h
      · revert h; decide
      · exact hstatnl h
      · revert h; decide
      · exact hstnl h
    have hws : ∀ l ∈ inn, l.head? ≠ some ' ' ∧ l.head? ≠ some '\t' := by
      intro l hl
      rw [hinn] at hl
      simp only [List.mem_cons, List.not_mem_nil, or_false] at hl
      rcases hl with rfl | rfl | rfl | rfl | rfl | rfl | rfl
      · exact headPair 'U' (str "ID:") e.uid (by decide) (by decide)
      · exact headPair 'D' (str "TSTAMP:") stamp (by decide) (by decide)
      · exact headPair 'D' (str "TSTART;VALUE=DATE:") _ (by decide) (by decide)
      · exact headPair 'D' (str "TEND;VALUE=DATE:") _ (by decide) (by decide)
      · exact headPair 'S' (str "UMMARY:") _ (by decide) (by decide)
      · exact headPair 'S' (str "TATUS:") statV (by decide) (by decide)
      · exact headPair 'L' (str "AST-MODIFIED:") stamp (by decide) (by decide)
    have hev : ∀ l ∈ inn,
        containsB (str "end:vevent") (low l) = false := by
      intro l hl
      rw [hinn] at hl
      simp only [List.mem_cons, List.not_mem_nil, or_false] at hl
      rcases hl with rfl | rfl | rfl | rfl | rfl | rfl | rfl <;>
        rw [low_append]
      · exact not_containsB_append (by decide) huid4 (by decide)
      · exact not_containsB_append (by decide) hstev (by decide)
      · exact not_containsB_append (by decide) hpev (by decide)
      · exact not_containsB_append (by decide) hqev (by decide)
      · exact not_containsB_append (by decide) hsumev (by decide)
      · exact not_containsB_append (by decide) hstatev (by decide)
      · exact not_containsB_append (by decide) hstev (by decide)
    have hpp : parseICS (generateICS stamp today e)
        = [inn.foldl procLine []].filter
            (fun ev => truthy (objGet ev (str "UID"))) := by
      show parseICS (joinCRLF (genLines stamp today e) ++ ['\r', '\n']) = _
      rw [hgen]
      exact parseICS_generated inn hcr hnl hws (by rw [hinn]; simp) hev
    set EV : Obj :=
        [(str "UID", e.uid), (str "_params_" ++ str "UID", []),
         (str "DTSTAMP", stamp), (str "_params_" ++ str "DTSTAMP", []),
         (str "DTSTART", pad4 y ++ pad2 m ++ pad2 d),
         (str "_params_" ++ str "DTSTART", str "VALUE=DATE"),
         (str "DTEND", pad4 y2 ++ pad2 m2 ++ pad2 d2),
         (str "_params_" ++ str "DTEND", str "VALUE=DATE"),
         (str "SUMMARY", e.title), (str "_params_" ++ str "SUMMARY", []),
         (str "STATUS", statV), (str "_params_" ++ str "STATUS", []),
         (str "LAST-MODIFIED", stamp),
         (str "_params_" ++ str "LAST-MODIFIED", [])] with hEV
    have hfold : inn.foldl procLine [] = EV := by
      rw [hinn, hEV]
      simp only [List.foldl_cons, List.foldl_nil, procLine,
        p1, p2, p3, p4, p5, p6, p7]
      rw [unescICS_id e.uid huid1, unescICS_id stamp hstbs,
        unescICS_id _ hpbs, unescICS_id _ hqbs,
        unesc_esc e.title ht1, unescICS_id statV hstatbs]
      rfl
    have hgU : objGet EV (str "UID") = some e.uid := by rw [hEV]; rfl
    have hgS : objGet EV (str "SUMMARY") = some e.title := by rw [hEV]; rfl
    have hST : objGet EV (str "STATUS") = some statV := by rw [hEV]; rfl
    have hDT : objGet EV (str "DTSTART")
        = some (pad4 y ++ pad2 m ++ pad2 d) := by rw [hEV]; rfl
    have htr : truthy (objGet EV (str "UID")) = true := by
      rw [hgU]
      obtain ⟨c, t, hc⟩ := huidCons
      rw [hc]
      rfl
    refine ⟨EV, ?_, hgU, hgS, hST, ⟨_, hDT, ?_⟩⟩
    · rw [hpp, hfold]
      simp [List.filter, htr]
    · rw [parseDTSTART_pads, hdate]
  case neg =>
    set inn : List Str := [str "UID:" ++ e.uid, str "DTSTAMP:" ++ stamp,
      str "DTSTART;VALUE=DATE:" ++ (pad4 y ++ pad2 m ++ pad2 d),
      str "DTEND;VALUE=DATE:" ++ (pad4 y2 ++ pad2 m2 ++ pad2 d2),
      str "SUMMARY:" ++ escICS e.title,
      str "DESCRIPTION:" ++ escICS e.descrip,
      str "STATUS:" ++ statV,
      str "LAST-MODIFIED:" ++ stamp] with hinn
    have hgen : genLines stamp today e
        = [str "BEGIN:VCALENDAR", str "VERSION:2.0",
           str "PRODID:-//Vonk & Vorm Project Manager//NL",
           str "CALSCALE:GREGORIAN"] ++ beginMark :: inn
          ++ [endMark, str "END:VCALENDAR"] := by
      unfold genLines
      rw [hstart, hend, if_neg hdesc, ← hstatV, hinn]
      rfl
    have hcr : ∀ l ∈ inn, '\r' ∉ l := by
      intro l hl
      rw [hinn] at hl
      simp only [List.mem_cons, List.not_mem_nil, or_false] at hl
      rcases hl with rfl | rfl | rfl | rfl | rfl | rfl | rfl | rfl <;>
        (intro h; rcases List.mem_append.1 h with h | h)
      · revert h; decide
      · exact huid2 h
      · revert h; decide
      · exact hstcr h
      · revert h; decide
      · exact hpcr h
      · revert h; decide
      · exact hqcr h
      · revert h; decide
      · exact hsumcr h
      · revert h; decide
      · exact hdscr h
      · revert h; decide
      · exact hstatcr h
      · revert h; decide
      · exact hstcr h
    have hnl : ∀ l ∈ inn, '\n' ∉ l := by
      intro l hl
      rw [hinn] at hl
      simp only [List.mem_cons, List.not_mem_nil, or_false] at hl
      rcases hl with rfl | rfl | rfl | rfl | rfl | rfl | rfl | rfl <;>
        (intro h; rcases List.mem_append.1 h with h | h)
      · revert h; decide
      · exact huid3 h
      · revert h; decide
      · exact hstnl h
      · revert h; decide
      · exact hpnl h
      · revert h; decide
      · exact hqnl h
      · revert h; decide
      · exact hsumnl h
      · revert h; decide
      · exact hdsnl h
      · revert h; decide
      · exact hstatnl h
      · revert h; decide
      · exact hstnl h
    have hws : ∀ l ∈ inn, l.head? ≠ some ' ' ∧ l.head? ≠ some '\t' := by
      intro l hl
      rw [hinn] at hl
      simp only [List.mem_cons, List.not_mem_nil, or_false] at hl
      rcases hl with rfl | rfl | rfl | rfl | rfl | rfl | rfl | rfl
      · exact headPair 'U' (str "ID:") e.uid (by decide) (by decide)
      · exact headPair 'D' (str "TSTAMP:") stamp (by decide) (by decide)
      · exact headPair 'D' (str "TSTART;VALUE=DATE:") _ (by decide) (by decide)
      · exact headPair 'D' (str "TEND;VALUE=DATE:") _ (by decide) (by decide)
      · exact headPair 'S' (str "UMMARY:") _ (by decide) (by decide)
      · exact headPair 'D' (str "ESCRIPTION:") _ (by decide) (by decide)
      · exact headPair 'S' (str "TATUS:") statV (by decide) (by decide)
      · exact headPair 'L' (str "AST-MODIFIED:") stamp (by decide) (by decide)
    have hev : ∀ l ∈ inn,
        containsB (str "end:vevent") (low l) = false := by
      intro l hl
      rw [hinn] at hl
      simp only [List.mem_cons, List.not_mem_nil, or_false] at hl
      rcases hl with rfl | rfl | rfl | rfl | rfl | rfl | rfl | rfl <;>
        rw [low_append]
      · exact not_containsB_append (by decide) huid4 (by decide)
      · exact not_containsB_append (by decide) hstev (by decide)
      · exact not_containsB_append (by decide) hpev (by decide)
      · exact not_containsB_append (by decide) hqev (by decide)
      · exact not_containsB_append (by decide) hsumev (by decide)
      · exact not_containsB_append (by decide) hdsev (by decide)
      · exact not_containsB_append (by decide) hstatev (by decide)
      · exact not_containsB_append (by decide) hstev (by decide)
    have hpp : parseICS (generateICS stamp today e)
        = [inn.foldl procLine []].filter
            (fun ev => truthy (objGet ev (str "UID"))) := by
      show parseICS (joinCRLF (genLines stamp today e) ++ ['\r', '\n']) = _
      rw [hgen]
      exact parseICS_generated inn hcr hnl hws (by rw [hinn]; simp) hev
    set EV : Obj :=
        [(str "UID", e.uid), (str "_params_" ++ str "UID", []),
         (str "DTSTAMP", stamp), (str "_params_" ++ str "DTSTAMP", []),
         (str "DTSTART", pad4 y ++ pad2 m ++ pad2 d),
         (str "_params_" ++ str "DTSTART", str "VALUE=DATE"),
         (str "DTEND", pad4 y2 ++ pad2 m2 ++ pad2 d2),
         (str "_params_" ++ str "DTEND", str "VALUE=DATE"),
         (str "SUMMARY", e.title), (str "_params_" ++ str "SUMMARY", []),
         (str "DESCRIPTION", unescICS (escICS e.descrip)),
         (str "_params_" ++ str "DESCRIPTION", []),
         (str "STATUS", statV), (str "_params_" ++ str "STATUS", []),
         (str "LAST-MODIFIED", stamp),
         (str "_params_" ++ str "LAST-MODIFIED", [])] with hEV
    have hfold : inn.foldl procLine [] = EV := by
      rw [hinn, hEV]
      simp only [List.foldl_cons, List.foldl_nil, procLine,
        p1, p2, p3, p4, p5, p6, p7, p8]
      rw [unescICS_id e.uid huid1, unescICS_id stamp hstbs,
        unescICS_id _ hpbs, unescICS_id _ hqbs,
        unesc_esc e.title ht1, unescICS_id statV hstatbs]
      rfl
    have hgU : objGet EV (str "UID") = some e.uid := by rw [hEV]; rfl
    have hgS : objGet EV (str "SUMMARY") = some e.title := by rw [hEV]; rfl
    have hST : objGet EV (str "STATUS") = some statV := by rw [hEV]; rfl
    have hDT : objGet EV (str "DTSTART")
        = some (pad4 y ++ pad2 m ++ pad2 d) := by rw [hEV]; rfl
    have htr : truthy (objGet EV (str "UID")) = true := by
      rw [hgU]
      obtain ⟨c, t, hc⟩ := huidCons
      rw [hc]
      rfl
    refine ⟨EV, ?_, hgU, hgS, hST, ⟨_, hDT, ?_⟩⟩
    · rw [hpp, hfold]
      simp [List.filter, htr]
    · rw [parseDTSTART_pads, hdate]

/-- C1, witness: a concrete record with comma and semicolon in the title and
a leap-day date satisfies every hypothesis of the amended round-trip theorem
and round-trips to a single event with the expected fields. -/
theorem caldav_codec_roundtrip_witness :
    noBsN (str "Plan, deel 1; test") = true ∧
    validYMD 2024 2 29 ∧
    ∃ ev : Obj, parseICS (generateICS (str "20240101T120000Z")
        (str "2024-01-01")
        ⟨str "pm-task-7", str "Plan, deel 1; test", str "Notitie",
         str "2024-02-29", str "done"⟩) = [ev]
      ∧ objGet ev (str "UID") = some (str "pm-task-7")
      ∧ objGet ev (str "SUMMARY") = some (str "Plan, deel 1; test")
      ∧ objGet ev (str "STATUS") = some (str "CANCELLED")
      ∧ ∃ dv, objGet ev (str "DTSTART") = some dv
          ∧ parseDTSTART dv = some (str "2024-02-29") :=
  ⟨by decide, by unfold validYMD; decide,
    caldav_codec_roundtrip (str "20240101T120000Z") (str "2024-01-01")
      ⟨str "pm-task-7", str "Plan, deel 1; test", str "Notitie",
       str "2024-02-29", str "done"⟩ 2024 2 29
      (by decide) (by decide) (by decide) (by decide) (by decide)
      (by decide) (by decide) (by decide) (by decide) (by decide)
      (by decide) (by decide) (by unfold validYMD; decide)⟩

/-- C1, counterexample to the claim as stated: a title consisting of the
two characters backslash-`n` is escaped (backslash first) to
backslash-backslash-`n`, which the unescape pipeline of `parseICS` reads
back as backslash-LF; the `SUMMARY` of the unique parsed event differs from
the input title, so the unrestricted round-trip property is false. -/
theorem caldav_codec_roundtrip_cx :
    (parseICS (generateICS (str "20240101T120000Z") (str "2024-01-01")
        ⟨str "u1", ['\\', 'n'], [], str "2024-01-15", str "pending"⟩)).map
        (fun ev => objGet ev (str "SUMMARY"))
      = [some ['\\', '\n']]
    ∧ (['\\', '\n'] : Str) ≠ ['\\', 'n'] :=
  ⟨by decide, by decide⟩

/-! ### Branch equations of `syncRemoteEvent` -/

/-- Create path: an unseen uid appends exactly one new task built from the
mapped fields. -/
theorem syncRemoteEvent_insert (icsEv : Obj) (etag : Str) (st : Store)
    (uid : Str)
    (huid : objGet icsEv (str "UID") = some uid) (hne : uid ≠ [])
    (hnone : selectByUid st uid = []) :
    syncRemoteEvent icsEv etag st
      = (st ++
          [{ id := nextId st,
             title := jsOr ((objGet icsEv (str "SUMMARY")).getD [])
               (str "(geen titel)"),
             descrip := (objGet icsEv (str "DESCRIPTION")).getD [],
             date := parseDTSTART
               (jsOr ((objGet icsEv (str "DTSTART")).getD [])
                 ((objGet icsEv (str "DTSTART;VALUE=DATE")).getD [])),
             status := if objGet icsEv (str "STATUS") = some (str "CANCELLED")
               then str "done" else str "pending",
             created_by := str "CalDAV", priority := str "medium",
             color := str "#7c5cbf", caldav_uid := uid,
             caldav_etag := etag }],
        true) := by
  simp only [syncRemoteEvent, huid, Option.getD_some]
  rw [if_neg hne, hnone]

/-- Update path: a seen uid with a changed etag rewrites the found task in
place. -/
theorem syncRemoteEvent_update (icsEv : Obj) (etag : Str) (st : Store)
    (uid : Str) (t : Task) (ts : List Task)
    (huid : objGet icsEv (str "UID") = some uid) (hne : uid ≠ [])
    (hsel : selectByUid st uid = t :: ts) (hetag : t.caldav_etag ≠ etag) :
    syncRemoteEvent icsEv etag st
      = (st.map (fun x => if x.id = t.id then
          { x with
            title := jsOr ((objGet icsEv (str "SUMMARY")).getD [])
              (str "(geen titel)"),
            descrip := (objGet icsEv (str "DESCRIPTION")).getD [],
            date := parseDTSTART
              (jsOr ((objGet icsEv (str "DTSTART")).getD [])
                ((objGet icsEv (str "DTSTART;VALUE=DATE")).getD [])),
            status := if objGet icsEv (str "STATUS") = some (str "CANCELLED")
              then str "done" else str "pending",
            caldav_etag := etag }
          else x), true) := by
  simp only [syncRemoteEvent, huid, Option.getD_some]
  rw [if_neg hne, hsel]
  dsimp only
  rw [if_pos hetag]

/-- Skip path: a seen uid with an unchanged etag leaves the store as is. -/
theorem syncRemoteEvent_skip (icsEv : Obj) (etag : Str) (st : Store)
    (uid : Str) (t : Task) (ts : List Task)
    (huid : objGet icsEv (str "UID") = some uid) (hne : uid ≠ [])
    (hsel : selectByUid st uid = t :: ts) (hetag : t.caldav_etag = etag) :
    syncRemoteEvent icsEv etag st = (st, false) := by
  simp only [syncRemoteEvent, huid, Option.getD_some]
  rw [if_neg hne, hsel]
  dsimp only
  rw [if_neg (fun h => h hetag)]

/-- C3: the scheduler glue has no single-flight guard — `runCalDAVSync`
neither consults nor sets an in-flight flag, and the manual `sync-now`
handler calls it unconditionally — so on the interleaving model a state
with two reconciliation runs simultaneously in flight, each with its store
write still outstanding, is reachable from idle, and the start transition
is enabled in every state.  This refutes the specified single-flight
guarantee at the code level. -/
theorem sync_not_single_flight :
    (∃ s : SchedState, SchedReach s ∧ 2 ≤ s.active.length ∧
      ∀ r ∈ s.active, RunStep.write ∈ r)
    ∧ ∀ s : SchedState, startEnabled s = true := by
  constructor
  · refine ⟨⟨[runScript, [RunStep.write]]⟩, ?_, by decide, by decide⟩
    have h0 := SchedReach.init
    have h1 := SchedReach.next h0 (SchedStep.start ⟨[]⟩ rfl)
    have h2 := SchedReach.next h1
      (SchedStep.step [] [] RunStep.fetch [RunStep.write])
    exact SchedReach.next h2 (SchedStep.start ⟨[[RunStep.write]]⟩ rfl)
  · intro s; rfl

/-- C4: when the lookup by the event's uid finds exactly the task `t` and
`t`'s stored etag equals the entry's etag, the reconciliation step performs
no store write — the store is returned unchanged — and reports `changed =
false`, contributing 0 to the run's changed count. -/
theorem caldav_noop_reconciliation (icsEv : Obj) (etag : Str) (st : Store)
    (uid : Str) (t : Task)
    (huid : objGet icsEv (str "UID") = some uid) (hne : uid ≠ [])
    (hsel : selectByUid st uid = [t]) (hetag : t.caldav_etag = etag) :
    syncRemoteEvent icsEv etag st = (st, false) :=
  syncRemoteEvent_skip icsEv etag st uid t [] huid hne hsel hetag

/-- C4, witness. -/
theorem caldav_noop_reconciliation_witness :
    objGet [(str "UID", str "u")] (str "UID") = some (str "u") ∧
    selectByUid [⟨1, str "T", [], none, str "pending", [], str "medium",
        str "#4f8ef7", str "u", str "E"⟩] (str "u")
      = [⟨1, str "T", [], none, str "pending", [], str "medium",
         str "#4f8ef7", str "u", str "E"⟩] ∧
    syncRemoteEvent [(str "UID", str "u")] (str "E")
        [⟨1, str "T", [], none, str "pending", [], str "medium",
          str "#4f8ef7", str "u", str "E"⟩]
      = ([⟨1, str "T", [], none, str "pending", [], str "medium",
          str "#4f8ef7", str "u", str "E"⟩], false) :=
  ⟨by decide, by decide,
    caldav_noop_reconciliation [(str "UID", str "u")] (str "E") _ (str "u")
      ⟨1, str "T", [], none, str "pending", [], str "medium",
       str "#4f8ef7", str "u", str "E"⟩
      (by decide) (by decide) (by decide) (by decide)⟩

/-- C5: an event whose uid matches no local task is created as exactly one
new task carrying the mapped title, description, normalized date, the
done/pending status mapping, and the entry's sync identity, and is counted
as changed. -/
theorem caldav_create_on_pull (icsEv : Obj) (etag : Str) (st : Store)
    (uid : Str)
    (huid : objGet icsEv (str "UID") = some uid) (hne : uid ≠ [])
    (hnone : selectByUid st uid = []) :
    ∃ newTask : Task, syncRemoteEvent icsEv etag st = (st ++ [newTask], true)
      ∧ newTask.caldav_uid = uid ∧ newTask.caldav_etag = etag
      ∧ newTask.title
          = jsOr ((objGet icsEv (str "SUMMARY")).getD []) (str "(geen titel)")
      ∧ newTask.descrip = (objGet icsEv (str "DESCRIPTION")).getD []
      ∧ newTask.date = parseDTSTART
          (jsOr ((objGet icsEv (str "DTSTART")).getD [])
                ((objGet icsEv (str "DTSTART;VALUE=DATE")).getD []))
      ∧ newTask.status
          = (if objGet icsEv (str "STATUS") = some (str "CANCELLED")
             then str "done" else str "pending")
      ∧ newTask.created_by = str "CalDAV" := by
  refine ⟨_, syncRemoteEvent_insert icsEv etag st uid huid hne hnone,
    ?_, ?_, ?_, ?_, ?_, ?_, ?_⟩ <;> rfl

/-- C5, witness: the claim's concrete instance — STATUS `CANCELLED` and
DTSTART `20240115` yield one new task with status `done` and date
`2024-01-15`. -/
theorem caldav_create_on_pull_witness :
    ∃ newTask : Task,
      syncRemoteEvent [(str "UID", str "w5"), (str "SUMMARY", str "Afspraak"),
          (str "STATUS", str "CANCELLED"), (str "DTSTART", str "20240115")]
        (str "E5") []
      = ([newTask], true)
      ∧ newTask.caldav_uid = str "w5" ∧ newTask.caldav_etag = str "E5"
      ∧ newTask.title = str "Afspraak"
      ∧ newTask.descrip = []
      ∧ newTask.date = some (str "2024-01-15")
      ∧ newTask.status = str "done"
      ∧ newTask.created_by = str "CalDAV" :=
  caldav_create_on_pull [(str "UID", str "w5"), (str "SUMMARY", str "Afspraak"),
      (str "STATUS", str "CANCELLED"), (str "DTSTART", str "20240115")]
    (str "E5") [] (str "w5") (by decide) (by decide) (by decide)

/-- C10: a uid-bearing event with a missing SUMMARY, a missing DESCRIPTION,
and a missing-or-unparseable DTSTART is still reconciled, substituting the
fixed defaults — title `(geen titel)`, empty description, null date — on
the create path as well as on the update path. -/
theorem caldav_implicit_defaults (icsEv : Obj) (etag : Str) (st : Store)
    (uid : Str)
    (huid : objGet icsEv (str "UID") = some uid) (hne : uid ≠ [])
    (hsum : objGet icsEv (str "SUMMARY") = none)
    (hdescr : objGet icsEv (str "DESCRIPTION") = none)
    (hdt : parseDTSTART (jsOr ((objGet icsEv (str "DTSTART")).getD [])
            ((objGet icsEv (str "DTSTART;VALUE=DATE")).getD [])) = none) :
    (selectByUid st uid = [] →
      ∃ newTask : Task,
        syncRemoteEvent icsEv etag st = (st ++ [newTask], true)
        ∧ newTask.title = str "(geen titel)"
        ∧ newTask.descrip = [] ∧ newTask.date = none)
    ∧ ∀ t : Task, selectByUid st uid = [t] → t.caldav_etag ≠ etag →
        ∃ st' : Store, syncRemoteEvent icsEv etag st = (st', true)
          ∧ ∃ t' ∈ st', t'.id = t.id ∧ t'.title = str "(geen titel)"
            ∧ t'.descrip = [] ∧ t'.date = none := by
  constructor
  · intro hnone
    refine ⟨_, syncRemoteEvent_insert icsEv etag st uid huid hne hnone,
      ?_, ?_, ?_⟩
    · show jsOr ((objGet icsEv (str "SUMMARY")).getD [])
          (str "(geen titel)") = str "(geen titel)"
      rw [hsum]
      rfl
    · show (objGet icsEv (str "DESCRIPTION")).getD [] = []
      rw [hdescr]
      rfl
    · exact hdt
  · intro t hsel hetag
    refine ⟨_,
      syncRemoteEvent_update icsEv etag st uid t [] huid hne hsel hetag, ?_⟩
    have htmem : t ∈ st := by
      have hmem : t ∈ selectByUid st uid := by
        rw [hsel]; exact List.mem_cons_self t []
      exact List.mem_of_mem_filter hmem
    refine ⟨_, List.mem_map_of_mem _ htmem, ?_, ?_, ?_, ?_⟩
    · show (if t.id = t.id then _ else t).id = t.id
      rw [if_pos rfl]
    · show (if t.id = t.id then _ else t).title = str "(geen titel)"
      rw [if_pos rfl]
      show jsOr ((objGet icsEv (str "SUMMARY")).getD [])
          (str "(geen titel)") = str "(geen titel)"
      rw [hsum]
      rfl
    · show (if t.id = t.id then _ else t).descrip = []
      rw [if_pos rfl]
      show (objGet icsEv (str "DESCRIPTION")).getD [] = []
      rw [hdescr]
      rfl
    · show (if t.id = t.id then _ else t).date = none
      rw [if_pos rfl]
      exact hdt

/-- C10, witness: an event carrying only a uid creates one task with the
default title, empty description, and null date. -/
theorem caldav_implicit_defaults_witness :
    ∃ newTask : Task,
      syncRemoteEvent [(str "UID", str "w10")] (str "E10") []
        = ([newTask], true)
      ∧ newTask.title = str "(geen titel)"
      ∧ newTask.descrip = [] ∧ newTask.date = none :=
  (caldav_implicit_defaults [(str "UID", str "w10")] (str "E10") []
      (str "w10") (by decide) (by decide) (by decide) (by decide)
      (by decide)).1 (by decide)

/-- C8: every event record returned by `parseICS` carries a truthy `UID` —
a block lacking one is dropped by the final filter — and a remote entry
whose body parses to no uid-bearing event leaves the merge accumulator
untouched (it is skipped, not an error). -/
theorem parseICS_uid_required (text : Str) :
    (∀ ev ∈ parseICS text, truthy (objGet ev (str "UID")) = true)
    ∧ ∀ (entry : RemoteEntry) (acc : Store × Nat),
        entry.ics = text → parseICS text = [] →
        processEntry acc entry = acc := by
  constructor
  · intro ev hev
    exact (List.mem_filter.1 hev).2
  · intro entry acc hics hempty
    simp only [processEntry, hics, hempty]
    rfl

/-- C8, witness: a VEVENT block without a UID parses to no event, and an
entry carrying it does not change the merge accumulator. -/
theorem parseICS_uid_required_witness :
    parseICS (str "BEGIN:VEVENT\r\nSUMMARY:x\r\nEND:VEVENT\r\n") = [] ∧
    processEntry (([] : Store), 0)
        ⟨str "/e1", str "W1",
         str "BEGIN:VEVENT\r\nSUMMARY:x\r\nEND:VEVENT\r\n"⟩
      = (([] : Store), 0) :=
  ⟨by decide,
    (parseICS_uid_required
        (str "BEGIN:VEVENT\r\nSUMMARY:x\r\nEND:VEVENT\r\n")).2
      ⟨str "/e1", str "W1",
       str "BEGIN:VEVENT\r\nSUMMARY:x\r\nEND:VEVENT\r\n"⟩
      ([], 0) rfl (by decide)⟩

/-- C6: for a valid `YYYY-MM-DD` date the generated document carries an
all-day DTSTART equal to the date's digits and an all-day DTEND equal to
the digits of the following calendar day (`nextDay`, rolling over month
and year boundaries), and `incDate` is exactly the calendar successor. -/
theorem caldav_allday_end_bound (stamp today : Str) (e : EventRec)
    (y m d : Nat)
    (hdate : e.date = fmtYMD y m d) (hval : validYMD y m d) :
    (str "DTSTART;VALUE=DATE:" ++ (pad4 y ++ pad2 m ++ pad2 d))
        ∈ genLines stamp today e
    ∧ (str "DTEND;VALUE=DATE:"
        ++ (pad4 (nextDay y m d).1 ++ pad2 (nextDay y m d).2.1
            ++ pad2 (nextDay y m d).2.2)) ∈ genLines stamp today e
    ∧ incDate e.date
        = fmtYMD (nextDay y m d).1 (nextDay y m d).2.1
            (nextDay y m d).2.2 := by
  obtain ⟨hm1, hm2, hdd1, hdd2, hy⟩ := hval
  have hm99 : m ≤ 99 := by omega
  have hdim : daysInMonth y m ≤ 31 := by
    unfold daysInMonth
    split_ifs <;> omega
  have hd99 : d ≤ 99 := by omega
  have hdateNe : e.date ≠ [] := by rw [hdate]; simp [fmtYMD, pad4]
  have hinc : incDate e.date
      = fmtYMD (nextDay y m d).1 (nextDay y m d).2.1 (nextDay y m d).2.2 := by
    rw [hdate]
    unfold incDate
    rw [parseYMD_fmt y m d hy hm99 hd99]
  have hstart : stripDashes (if e.date = [] then today else e.date)
      = pad4 y ++ pad2 m ++ pad2 d := by
    rw [if_neg hdateNe, hdate, stripDashes_fmt]
  have hend : stripDashes (incDate (if e.date = [] then today else e.date))
      = pad4 (nextDay y m d).1 ++ pad2 (nextDay y m d).2.1
          ++ pad2 (nextDay y m d).2.2 := by
    rw [if_neg hdateNe, hinc]
    exact stripDashes_fmt _ _ _
  refine ⟨?_, ?_, hinc⟩
  · unfold genLines
    refine List.mem_filterMap.2
      ⟨some (str "DTSTART;VALUE=DATE:" ++ (pad4 y ++ pad2 m ++ pad2 d)),
        ?_, rfl⟩
    rw [← hstart]
    simp
  · unfold genLines
    refine List.mem_filterMap.2
      ⟨some (str "DTEND;VALUE=DATE:"
        ++ (pad4 (nextDay y m d).1 ++ pad2 (nextDay y m d).2.1
            ++ pad2 (nextDay y m d).2.2)), ?_, rfl⟩
    rw [← hend]
    simp

/-- C6, witness: date `2024-01-15` yields start `20240115` and end
`20240116`. -/
theorem caldav_allday_end_bound_witness :
    (str "DTSTART;VALUE=DATE:" ++ str "20240115")
        ∈ genLines (str "20240101T000000Z") (str "2024-01-01")
            ⟨str "u6", str "T6", [], str "2024-01-15", str "pending"⟩
    ∧ (str "DTEND;VALUE=DATE:" ++ str "20240116")
        ∈ genLines (str "20240101T000000Z") (str "2024-01-01")
            ⟨str "u6", str "T6", [], str "2024-01-15", str "pending"⟩
    ∧ incDate (str "2024-01-15") = str "2024-01-16" :=
  caldav_allday_end_bound (str "20240101T000000Z") (str "2024-01-01")
    ⟨str "u6", str "T6", [], str "2024-01-15", str "pending"⟩ 2024 1 15
    (by decide) (by unfold validYMD; decide)

/-- Strategy 1 stops at the first 401: candidates before it answered with
some other status, the 401 candidate ends the loop with the authentication
failure, and no candidate after it is probed. -/
theorem tryDirect_401 : ∀ (pre : List Str) (url : Str) (rest : List Str)
    (server : Server),
    (∀ u ∈ pre, ∃ s l b, server (probeReq u) = .resp s l b
      ∧ s ≠ 207 ∧ s ≠ 401) →
    (∃ l b, server (probeReq url) = .resp 401 l b) →
    tryDirect server (pre ++ url :: rest)
      = (pre.map probeReq ++ [probeReq url], [],
         some (.thrown authFailMsg)) := by
  intro pre
  induction pre with
  | nil =>
    intro url rest server _ h401
    obtain ⟨l, b, hsrv⟩ := h401
    show tryDirect server (url :: rest) = _
    simp only [tryDirect, hsrv]
    simp
  | cons u pre ih =>
    intro url rest server hpre h401
    obtain ⟨s, l, b, hsrv, h207, h401'⟩ := hpre u (List.mem_cons_self u pre)
    show tryDirect server (u :: (pre ++ url :: rest)) = _
    simp only [tryDirect, hsrv]
    rw [if_neg h207, if_neg h401',
      ih url rest server (fun v hv => hpre v (List.mem_cons_of_mem u hv)) h401]
    rfl

/-- C2: a 401 on a direct-candidate probe aborts discovery with the
authentication-failure error; the request trace is exactly the probes of
the earlier candidates and the 401 one — no later candidate and no later
strategy is attempted.  With the 401 on the first candidate the trace is a
single request. -/
theorem caldav_auth_short_circuit (server : Server)
    (serverHost username : Str) (pre rest : List Str) (url : Str)
    (hsplit : directCandidates (str "https://" ++ serverHost) username
      = pre ++ url :: rest)
    (hpre : ∀ u ∈ pre, ∃ s l b, server (probeReq u) = .resp s l b
      ∧ s ≠ 207 ∧ s ≠ 401)
    (h401 : ∃ l b, server (probeReq url) = .resp 401 l b) :
    discoverCalendarUrl server serverHost username
      = (pre.map probeReq ++ [probeReq url], .error authFailMsg) := by
  simp only [discoverCalendarUrl]
  rw [hsplit, tryDirect_401 pre url rest server hpre h401]

/-- C2, witness: a server answering 401 everywhere makes discovery fail
with the authentication error after exactly one request, the probe of the
first direct candidate. -/
theorem caldav_auth_short_circuit_witness :
    ((fun _ => HResp.resp 401 none []) : Server)
        (probeReq (str "https://h/caldav/v2/u/calendar/"))
      = HResp.resp 401 none [] ∧
    discoverCalendarUrl (fun _ => HResp.resp 401 none [])
        (str "h") (str "u")
      = ([probeReq (str "https://h/caldav/v2/u/calendar/")],
         .error authFailMsg) :=
  ⟨rfl,
    caldav_auth_short_circuit (fun _ => HResp.resp 401 none [])
      (str "h") (str "u") []
      [str "https://h/caldav/v2/u/calendar/", str "https://h/caldav/v2/u/",
       str "https://h/calendars/u/", str "https://h/calendars/u/"]
      (str "https://h/caldav/v2/u/calendar/")
      (by decide) (fun v hv => absurd hv (List.not_mem_nil v))
      ⟨none, [], rfl⟩⟩

/-- `s.isPrefixOf s`. -/
theorem isPrefixOf_self (s : Str) : s.isPrefixOf s = true := by
  have h := isPrefixOf_append_self s []
  rwa [List.append_nil] at h

/-- A string contains its own suffix. -/
theorem containsB_append_self (X pat : Str) :
    containsB pat (X ++ pat) = true :=
  containsB_iff.2 ⟨X.length, by rw [List.drop_left]; exact isPrefixOf_self pat⟩

/-- C7: `fetchEvents` issues one time-ranged REPORT; on 207 it returns the
parsed entries of that response; on a status signalling a rejected filter
(400, 403, 501) it retries exactly once, unfiltered — a 207 there returns
the retry's parsed entries, any other status fails with a message that
contains the attempted collection URL; any other first status fails the
same way without a retry; a transport failure propagates as the error. -/
theorem caldav_fetch_fallback (server : Server)
    (calendarUrl startStamp endStamp : Str) (rq1 rq2 : Req)
    (hrq1 : rq1 = { method := str "REPORT", url := calendarUrl,
                    depth := some (str "1"),
                    body := queryBodyTR startStamp endStamp })
    (hrq2 : rq2 = { method := str "REPORT", url := calendarUrl,
                    depth := some (str "1"), body := queryBodyAll }) :
    (∀ l b, server rq1 = .resp 207 l b →
      fetchEvents server calendarUrl startStamp endStamp
        = ([rq1], .ok (parseMultiStatus b)))
    ∧ (∀ s l b, server rq1 = .resp s l b → (s = 400 ∨ s = 403 ∨ s = 501) →
        ∀ l2 b2, server rq2 = .resp 207 l2 b2 →
        fetchEvents server calendarUrl startStamp endStamp
          = ([rq1, rq2], .ok (parseMultiStatus b2)))
    ∧ (∀ s l b, server rq1 = .resp s l b → (s = 400 ∨ s = 403 ∨ s = 501) →
        ∀ s2 l2 b2, server rq2 = .resp s2 l2 b2 → s2 ≠ 207 →
        fetchEvents server calendarUrl startStamp endStamp
          = ([rq1, rq2], .error (reportFailMsg s calendarUrl))
        ∧ containsB calendarUrl (reportFailMsg s calendarUrl) = true)
    ∧ (∀ s l b, server rq1 = .resp s l b → s ≠ 207 →
        ¬(s = 400 ∨ s = 403 ∨ s = 501) →
        fetchEvents server calendarUrl startStamp endStamp
          = ([rq1], .error (reportFailMsg s calendarUrl))
        ∧ containsB calendarUrl (reportFailMsg s calendarUrl) = true)
    ∧ (∀ m, server rq1 = .netErr m →
        fetchEvents server calendarUrl startStamp endStamp
          = ([rq1], .error m)) := by
  subst hrq1 hrq2
  refine ⟨?_, ?_, ?_, ?_, ?_⟩
  · intro l b hsrv
    simp only [fetchEvents, hsrv]
    simp
  · intro s l b hsrv hs l2 b2 hsrv2
    have h207 : ¬(s = 207) := by rcases hs with rfl | rfl | rfl <;> decide
    simp only [fetchEvents, hsrv, hsrv2]
    rw [if_neg h207, if_pos hs]
    simp
  · intro s l b hsrv hs s2 l2 b2 hsrv2 h2
    have h207 : ¬(s = 207) := by rcases hs with rfl | rfl | rfl <;> decide
    constructor
    · simp only [fetchEvents, hsrv, hsrv2]
      rw [if_neg h207, if_pos hs, if_neg h2]
    · exact containsB_append_self _ _
  · intro s l b hsrv h207 hs
    constructor
    · simp only [fetchEvents, hsrv]
      rw [if_neg h207, if_neg hs]
    · exact containsB_append_self _ _
  · intro m hsrv
    simp only [fetchEvents, hsrv]

/-- C7, witness: a server rejecting the filtered query with 400 and
answering the unfiltered retry with an empty 207 multistatus makes
`fetchEvents` return the empty entry list after exactly the two
requests. -/
theorem caldav_fetch_fallback_witness :
    fetchEvents
        (fun rq => if rq.body = queryBodyAll then HResp.resp 207 none []
                   else HResp.resp 400 none [])
        (str "/cal") (str "S") (str "E")
      = ([{ method := str "REPORT", url := str "/cal",
            depth := some (str "1"), body := queryBodyTR (str "S") (str "E") },
          { method := str "REPORT", url := str "/cal",
            depth := some (str "1"), body := queryBodyAll }],
         .ok []) :=
  (caldav_fetch_fallback
      (fun rq => if rq.body = queryBodyAll then HResp.resp 207 none []
                 else HResp.resp 400 none [])
      (str "/cal") (str "S") (str "E")
      { method := str "REPORT", url := str "/cal",
        depth := some (str "1"), body := queryBodyTR (str "S") (str "E") }
      { method := str "REPORT", url := str "/cal",
        depth := some (str "1"), body := queryBodyAll }
      rfl rfl).2.1 400 none [] (by decide) (Or.inl rfl) none [] (by decide)

/-- Combine two `Pairwise` facts pointwise. -/
theorem pairwise_and {α : Type} {R S : α → α → Prop} : ∀ {l : List α},
    l.Pairwise R → l.Pairwise S → l.Pairwise (fun a b => R a b ∧ S a b) := by
  intro l hR
  induction hR with
  | nil => intro _; exact .nil
  | cons hx hxs ih =>
    intro hS
    cases hS with
    | cons hy hys => exact .cons (fun b hb => ⟨hx b hb, hy b hb⟩) (ih hys)

/-- Weaken a `Pairwise` fact using the membership of both elements. -/
theorem pairwise_imp_mem {α : Type} {R S : α → α → Prop} : ∀ {l : List α},
    (∀ a b, a ∈ l → b ∈ l → R a b → S a b) → l.Pairwise R → l.Pairwise S := by
  intro l
  induction l with
  | nil => intro _ _; exact .nil
  | cons x xs ih =>
    intro H hp
    cases hp with
    | cons hx hxs =>
      refine .cons (fun b hb => H x b (List.mem_cons_self x xs)
        (List.mem_cons_of_mem x hb) (hx b hb)) (ih ?_ hxs)
      intro a b ha hb hr
      exact H a b (List.mem_cons_of_mem x ha) (List.mem_cons_of_mem x hb) hr

/-- A rowwise rewrite that keeps every `caldav_uid` keeps the uniqueness
invariant. -/
theorem uidUnique_map_preserve (st : Store) (f : Task → Task)
    (hf : ∀ t, (f t).caldav_uid = t.caldav_uid) (h : UidUnique st) :
    UidUnique (st.map f) := by
  unfold UidUnique at h ⊢
  rw [List.pairwise_map]
  refine h.imp ?_
  intro a b hab
  rw [hf a, hf b]
  exact hab

/-- C9, amended: the pull side preserves the uniqueness invariant — a skip
writes nothing, an update keeps every row's uid, and an insert happens only
when the uid lookup found no row — and the push side's identity stamping
preserves it provided the chosen push uid does not already belong to a
different row (rows have distinct ids, the table's primary key).  Without
that proviso the stamping can duplicate a uid: see the counterexample. -/
theorem caldav_uid_unique_preserved (icsEv : Obj) (etag : Str) (st : Store)
    (h : UidUnique st) :
    UidUnique (syncRemoteEvent icsEv etag st).1
    ∧ ∀ task : Task, st.Pairwise (fun a b => a.id ≠ b.id) →
        (∀ t ∈ st, t.id ≠ task.id → t.caldav_uid ≠ pushUid task) →
        UidUnique (pushStamp st task etag) := by
  constructor
  · by_cases huid : (objGet icsEv (str "UID")).getD [] = []
    · simp only [syncRemoteEvent, if_pos huid]
      exact h
    · have hsome : objGet icsEv (str "UID")
          = some ((objGet icsEv (str "UID")).getD []) := by
        cases ho : objGet icsEv (str "UID") with
        | none => rw [ho] at huid; exact absurd rfl huid
        | some v => rfl
      cases hsel : selectByUid st ((objGet icsEv (str "UID")).getD []) with
      | nil =>
        rw [syncRemoteEvent_insert icsEv etag st _ hsome huid hsel]
        have hnone : ∀ t ∈ st,
            t.caldav_uid ≠ (objGet icsEv (str "UID")).getD [] := by
          intro t ht heq
          have : t ∈ selectByUid st ((objGet icsEv (str "UID")).getD []) :=
            List.mem_filter.2 ⟨ht, by simp [heq]⟩
          rw [hsel] at this
          cases this
        unfold UidUnique at h ⊢
        rw [List.pairwise_append]
        refine ⟨h, List.pairwise_singleton _ _, ?_⟩
        intro a ha b hb
        rw [List.mem_singleton] at hb
        subst hb
        intro hcon
        exact hnone a ha hcon.1
      | cons t ts =>
        by_cases hetag : t.caldav_etag ≠ etag
        · rw [syncRemoteEvent_update icsEv etag st _ t ts hsome huid hsel hetag]
          refine uidUnique_map_preserve st _ ?_ h
          intro x
          by_cases hx : x.id = t.id <;> simp [hx]
        · rw [syncRemoteEvent_skip icsEv etag st _ t ts hsome huid hsel
            (by rw [Ne, not_not] at hetag; exact hetag)]
          exact h
  · intro task hids hno
    unfold UidUnique at h ⊢
    unfold pushStamp
    rw [List.pairwise_map]
    refine pairwise_imp_mem ?_ (pairwise_and h hids)
    intro a b ha hb hr hcon
    obtain ⟨hru, hid⟩ := hr
    by_cases hA : a.id = task.id <;> by_cases hB : b.id = task.id
    · exact hid (hA.trans hB.symm)
    · rw [if_pos hA, if_neg hB] at hcon
      exact hno b hb hB (hcon.1.symm)
    · rw [if_neg hA, if_pos hB] at hcon
      exact hno a ha hA hcon.1
    · rw [if_neg hA, if_neg hB] at hcon
      exact hru hcon

/-- C9, witness: on a store with distinct uids, a pull-side create keeps
uniqueness, and a push-side stamping whose uid collides with no other row
keeps it too. -/
theorem caldav_uid_unique_preserved_witness :
    UidUnique [⟨1, str "T", [], none, str "pending", [], str "medium",
        str "#4f8ef7", str "u1", str "E"⟩] ∧
    UidUnique (syncRemoteEvent [(str "UID", str "u2")] (str "E2")
        [⟨1, str "T", [], none, str "pending", [], str "medium",
          str "#4f8ef7", str "u1", str "E"⟩]).1 ∧
    UidUnique (pushStamp
        [⟨1, str "T", [], none, str "pending", [], str "medium",
          str "#4f8ef7", str "u1", str "E"⟩]
        ⟨1, str "T", [], none, str "pending", [], str "medium",
         str "#4f8ef7", str "u1", str "E"⟩ (str "E3")) :=
  ⟨by unfold UidUnique; decide,
   (caldav_uid_unique_preserved [(str "UID", str "u2")] (str "E2")
      [⟨1, str "T", [], none, str "pending", [], str "medium",
        str "#4f8ef7", str "u1", str "E"⟩]
      (by unfold UidUnique; decide)).1,
   (caldav_uid_unique_preserved [(str "UID", str "u2")] (str "E3")
      [⟨1, str "T", [], none, str "pending", [], str "medium",
        str "#4f8ef7", str "u1", str "E"⟩]
      (by unfold UidUnique; decide)).2
     ⟨1, str "T", [], none, str "pending", [], str "medium",
      str "#4f8ef7", str "u1", str "E"⟩ (by decide) (by decide)⟩

/-- C9, counterexample to the unrestricted claim: the push handler derives
the uid `pm-task-(id)` without checking other rows; stamping task 7 of a
store in which another task already carries the uid `pm-task-7` produces
two rows with that uid, breaking the invariant. -/
theorem caldav_uid_unique_cx :
    UidUnique [⟨7, str "A", [], none, str "pending", [], str "medium",
        str "#4f8ef7", [], []⟩,
      ⟨12, str "B", [], none, str "pending", [], str "medium",
       str "#4f8ef7", str "pm-task-7", str "x"⟩] ∧
    ¬ UidUnique (pushStamp
        [⟨7, str "A", [], none, str "pending", [], str "medium",
          str "#4f8ef7", [], []⟩,
         ⟨12, str "B", [], none, str "pending", [], str "medium",
          str "#4f8ef7", str "pm-task-7", str "x"⟩]
        ⟨7, str "A", [], none, str "pending", [], str "medium",
         str "#4f8ef7", [], []⟩ (str "e")) :=
  ⟨by unfold UidUnique; decide, by unfold UidUnique; decide⟩

end PMSync
